import Mathlib
/-!
Verification development for the `prev` static-site generator
(source files `main.py` and `prev.py`).

The development shallowly embeds the data model and the operations of the
two source files:

* SQLite values are `Val` (NULL, integer, or text); a database row, and the
  per-slug template-value dictionary built by `gen_tmpl_values`, are
  association lists in insertion order, mirroring Python `dict` /
  `sqlite3.Row` semantics.
* Python `str.format` (used by `main.py` for page rendering and for the
  `dateage` injection) is embedded as a tokenizer plus substitution pass.
* Fallible code paths (a `KeyError` / `ValueError` from `format`, a
  `TypeError` from `+=`, an unparsable date in `strptime`, an unbound
  variable) are embedded as `Option`, `none` meaning the Python code
  raises and the build aborts.

Definitions are grouped in namespaces `M` (from `main.py`) and `P`
(from `prev.py`); shared helpers are at top level.
-/
set_option maxHeartbeats 1000000
set_option maxRecDepth 20000

/-- A SQLite column value as surfaced to Python by `sqlite3.Row`:
`NULL` becomes `None`, integers stay integers, text stays text.
(The repository's columns hold only these; floats/blobs are unused.) -/
inductive Val where
  | null : Val
  | int : Int → Val
  | text : String → Val
deriving DecidableEq

/-- Python `str(v)` on a column value (as used by f-string interpolation
and by `str(...)` in the sources): `None` prints as `"None"`. -/
def valStr : Val → String
  | Val.null => "None"
  | Val.int n => toString n
  | Val.text s => s

/-- Python truthiness of a column value (`if row.get('listed', 1):`):
`None`, `0` and the empty string are falsy, everything else truthy. -/
def pyTruthy : Val → Bool
  | Val.null => false
  | Val.int n => n != 0
  | Val.text s => s != ""

/-- A database row / Python dict: an association list in insertion order. -/
abbrev Row := List (String × Val)

/-- Dictionary lookup (`d[k]` / `d.get(k)`): first binding wins. -/
def lookupA {α : Type} [DecidableEq α] {β : Type} : List (α × β) → α → Option β
  | [], _ => none
  | (k0, v0) :: rest, k => if k = k0 then some v0 else lookupA rest k

/-- Dictionary write (`d[k] = v`): replaces the binding in place if the key
exists, otherwise appends it (Python dicts keep insertion order). -/
def setA {α : Type} [DecidableEq α] {β : Type} : List (α × β) → α → β → List (α × β)
  | [], k, v => [(k, v)]
  | (k0, v0) :: rest, k, v =>
      if k = k0 then (k0, v) :: rest else (k0, v0) :: setA rest k v

/-- In-place update of an existing binding (`d[k] = f d[k]`); no-op when the
key is absent. -/
def updateA {α : Type} [DecidableEq α] {β : Type} : List (α × β) → α → (β → β) → List (α × β)
  | [], _, _ => []
  | (k0, v0) :: rest, k, f =>
      if k = k0 then (k0, f v0) :: rest else (k0, v0) :: updateA rest k f

/-! ## Python `str.format`

`main.py` renders pages with `template.format(css=css, **row)` and injects
the date-age fragment with `html.format(dateage=...)`.  We embed CPython's
`str.format` for the replacement fields the repository uses: a plain
keyword field name between `{` and `}`, with `{{` / `}}` as escapes.
A malformed field (`ValueError`) or a missing keyword (`KeyError`) is
`none`.  Conversion/format-spec syntax (`!r`, `:>8`) is not used by the
repository's templates and a field using it is likewise `none`.

The embedding tokenizes structurally (one pass, a mode tracking whether we
are inside a replacement field) and then substitutes, so that it computes
by kernel reduction. -/

/-- A token of a format string: a literal character or a replacement field. -/
inductive FTok where
  | text : Char → FTok
  | field : List Char → FTok
deriving DecidableEq

/-- Tokenizer mode: at top level, or inside `{...}` accumulating the name. -/
inductive FMode where
  | top : FMode
  | inName : List Char → FMode
deriving DecidableEq

/-- Tokenize a Python format string.  `none` is CPython's `ValueError`
("Single '}' encountered" / "expected '}' before end of string"). -/
def fmtTok : FMode → List Char → Option (List FTok)
  | FMode.top, [] => some []
  | FMode.top, c :: rest =>
      if c = '{' then
        match rest with
        | [] => none
        | c2 :: rest2 =>
            if c2 = '{' then (fmtTok FMode.top rest2).map (FTok.text '{' :: ·)
            else fmtTok (FMode.inName []) (c2 :: rest2)
      else if c = '}' then
        match rest with
        | [] => none
        | c2 :: rest2 =>
            if c2 = '}' then (fmtTok FMode.top rest2).map (FTok.text '}' :: ·)
            else none
      else (fmtTok FMode.top rest).map (FTok.text c :: ·)
  | FMode.inName _, [] => none
  | FMode.inName acc, c :: rest =>
      if c = '}' then (fmtTok FMode.top rest).map (FTok.field acc :: ·)
      else if c = '{' then none
      else fmtTok (FMode.inName (acc ++ [c])) rest

/-- Substitute the replacement fields; `none` is a `KeyError` on a missing
keyword argument. -/
def fmtSubst (get : String → Option String) : List FTok → Option (List Char)
  | [] => some []
  | FTok.text c :: ts => (fmtSubst get ts).map (c :: ·)
  | FTok.field n :: ts =>
      match get (String.mk n) with
      | none => none
      | some v => (fmtSubst get ts).map (v.data ++ ·)

/-- Python `s.format(**kwargs)` with `kwargs` given as a lookup function. -/
def pyFormat (get : String → Option String) (s : String) : Option String :=
  ((fmtTok FMode.top s.data).bind (fmtSubst get)).map String.mk

/-- Characters that are literal text for the format machinery. -/
def braceFree (l : List Char) : Bool :=
  l.all (fun c => c ≠ '{' && c ≠ '}')

/-- A legal plain field name: nonempty irrelevant, just brace-free. -/
def nameOK (l : List Char) : Bool := braceFree l

/-! ## XML escaping (`xml_escape` in `prev.py`; inlined in `main.py`)

`s.replace("&", "&amp;").replace("<", "&lt;").replace(">", "&gt;")` —
`str.replace` with a single-character pattern expands each occurrence of
that character, leaving everything else untouched. -/

/-- Python `str.replace` restricted to a single-character pattern. -/
def replace1 (c : Char) (rep : List Char) : List Char → List Char
  | [] => []
  | x :: rest => (if x = c then rep else [x]) ++ replace1 c rep rest

/-- Embeds `xml_escape` from `prev.py` lines 94-99 (and inlined at
`main.py` line 227): escape `&` first, then `<`, then `>`. -/
def xml_escape (s : String) : String :=
  String.mk (replace1 '>' "&gt;".data (replace1 '<' "&lt;".data
    (replace1 '&' "&amp;".data s.data)))

/-- The per-character expansion the three replaces amount to. -/
def escChar (c : Char) : List Char :=
  if c = '&' then "&amp;".data
  else if c = '<' then "&lt;".data
  else if c = '>' then "&gt;".data
  else [c]

/-- One left-to-right pass of `escChar`. -/
def escAll : List Char → List Char
  | [] => []
  | c :: rest => escChar c ++ escAll rest

/-- Text-node safety: no raw `<` or `>`, and every `&` starts one of the
three entity references `&amp;` `&lt;` `&gt;`. -/
def wellEscaped : List Char → Bool
  | [] => true
  | '&' :: 'a' :: 'm' :: 'p' :: ';' :: rest => wellEscaped rest
  | '&' :: 'l' :: 't' :: ';' :: rest => wellEscaped rest
  | '&' :: 'g' :: 't' :: ';' :: rest => wellEscaped rest
  | '&' :: _ => false
  | '<' :: _ => false
  | '>' :: _ => false
  | _ :: rest => wellEscaped rest

/-! ## Dates: `strptime("%Y-%m-%d")` and `email.utils.format_datetime`

`generate_rss` (both files) converts `created_time` via
`dt = r['created_time'].split(' ')[0]`, `datetime.strptime(dt, "%Y-%m-%d")`,
`dt.replace(tzinfo=timezone.utc)`, `format_datetime(dt)`.  We embed the
parse (including the calendar validation done by the `datetime`
constructor) and the RFC 822 rendering (weekday via Zeller's congruence;
time fixed at midnight because `strptime` with a date-only format leaves
00:00:00; offset `+0000` because the tzinfo is UTC). -/

structure Date where
  year : Nat
  month : Nat
  day : Nat
deriving DecidableEq

def isLeap (y : Nat) : Bool :=
  y % 4 == 0 && (y % 100 != 0 || y % 400 == 0)

def daysInMonth (y m : Nat) : Nat :=
  if m = 2 then (if isLeap y then 29 else 28)
  else if m = 4 ∨ m = 6 ∨ m = 9 ∨ m = 11 then 30
  else 31

def natOfDigits (l : List Char) : Nat :=
  l.foldl (fun a c => a * 10 + (c.toNat - 48)) 0

/-- Embeds `s.split('-')` on the character level (`''.split` returns one empty
group; each dash starts a new group). -/
def splitOnDash : List Char → List (List Char)
  | [] => [[]]
  | c :: rest =>
      if c = '-' then [] :: splitOnDash rest
      else
        match splitOnDash rest with
        | [] => [[c]]
        | g :: gs => (c :: g) :: gs

/-- Embeds `datetime.strptime(s, "%Y-%m-%d")`: `%Y` takes 1-4 digits, `%m`/`%d`
take 1-2 digits, the whole string must be consumed, and the resulting
`datetime` constructor validates the calendar ranges. -/
def parseYMD (s : String) : Option Date :=
  match splitOnDash s.data with
  | [ys, ms, ds] =>
      if !ys.isEmpty && ys.all Char.isDigit && ys.length ≤ 4 &&
         !ms.isEmpty && ms.all Char.isDigit && ms.length ≤ 2 &&
         !ds.isEmpty && ds.all Char.isDigit && ds.length ≤ 2 then
        let y := natOfDigits ys
        let m := natOfDigits ms
        let d := natOfDigits ds
        if 1 ≤ y && 1 ≤ m && m ≤ 12 && 1 ≤ d && d ≤ daysInMonth y m then
          some ⟨y, m, d⟩
        else none
      else none
  | _ => none

/-- Zeller's congruence; result 0 = Saturday, 1 = Sunday, 2 = Monday, ... -/
def zellerDow (y m d : Nat) : Nat :=
  let mm := if m < 3 then m + 12 else m
  let yy := if m < 3 then y - 1 else y
  let k := yy % 100
  let j := yy / 100
  (d + (13 * (mm + 1)) / 5 + k + k / 4 + j / 4 + 5 * j) % 7

def dowName (h : Nat) : String :=
  ["Sat", "Sun", "Mon", "Tue", "Wed", "Thu", "Fri"].getD h "Mon"

def monthName (m : Nat) : String :=
  ["Jan", "Feb", "Mar", "Apr", "May", "Jun",
   "Jul", "Aug", "Sep", "Oct", "Nov", "Dec"].getD (m - 1) "Jan"

def pad2 (n : Nat) : String :=
  if n < 10 then "0" ++ toString n else toString n

def pad4 (n : Nat) : String :=
  if n < 10 then "000" ++ toString n
  else if n < 100 then "00" ++ toString n
  else if n < 1000 then "0" ++ toString n
  else toString n

/-- Embeds `email.utils.format_datetime` on a UTC midnight datetime:
`"%a, %02d %b %04d %02d:%02d:%02d %z"` shape with the `+0000` offset. -/
def fmtRFC822 (d : Date) : String :=
  dowName (zellerDow d.year d.month d.day) ++ ", " ++ pad2 d.day ++ " " ++
    monthName d.month ++ " " ++ pad4 d.year ++ " 00:00:00 +0000"

/-- Embeds `s.split(' ')[0]`: the characters before the first space. -/
def firstSpaceField (s : String) : String :=
  String.mk (s.data.takeWhile (fun c => c != ' '))

/-- The `created_time` → `<pubDate>` conversion of `generate_rss` (both
files): take the date part of the stored timestamp, parse it, render it in
RFC 822 with UTC.  A non-text value (`.split` on a non-`str`) or an
unparsable date (`strptime`) raises: `none`. -/
def pubDateOf : Val → Option String
  | Val.text s => (parseYMD (firstSpaceField s)).map fmtRFC822
  | _ => none

/-! ## RSS feed generation (`generate_rss` in both files)

Both variants run
`SELECT slug, <title_col>, created_time, html FROM <table> ORDER BY created_time DESC`
and then emit one `<item>` per row.  The row projection models the SELECT
list; a missing column is an `sqlite3.OperationalError` (`none`).  The
`ORDER BY ... DESC` is modelled by an insertion sort on the SQLite value
ordering (NULL < INTEGER < TEXT, text compared bytewise, which for UTF-8
agrees with codepoint order). -/

def BASE_URL : String := "https://danielfalbo.com"

/-- One row of the feed query's result set. -/
structure RssRow where
  slug : Val
  title : Val
  created_time : Val
  html : Val
deriving DecidableEq

/-- The SELECT list `slug, <titleCol>, created_time, html`. -/
def rssProject (titleCol : String) (r : Row) : Option RssRow :=
  match lookupA r "slug", lookupA r titleCol, lookupA r "created_time", lookupA r "html" with
  | some s, some t, some c, some h => some ⟨s, t, c, h⟩
  | _, _, _, _ => none

/-- Project every row; the query fails as a whole if a column is missing. -/
def projectAll (titleCol : String) : List Row → Option (List RssRow)
  | [] => some []
  | r :: rs =>
      match rssProject titleCol r with
      | none => none
      | some p => (projectAll titleCol rs).map (p :: ·)

/-- Bytewise-lexicographic `≤` on text (SQLite BINARY collation). -/
def strLeB : List Char → List Char → Bool
  | [], _ => true
  | _ :: _, [] => false
  | a :: as, b :: bs =>
      if a.toNat < b.toNat then true
      else if b.toNat < a.toNat then false
      else strLeB as bs

/-- SQLite's cross-type ordering for ORDER BY: NULL < INTEGER < TEXT. -/
def sqliteLe : Val → Val → Bool
  | Val.null, _ => true
  | Val.int _, Val.null => false
  | Val.int a, Val.int b => decide (a ≤ b)
  | Val.int _, Val.text _ => true
  | Val.text _, Val.null => false
  | Val.text _, Val.int _ => false
  | Val.text a, Val.text b => strLeB a.data b.data

/-- Insert into a list sorted by `created_time` descending. -/
def insertByCreatedDesc (r : RssRow) : List RssRow → List RssRow
  | [] => [r]
  | x :: xs =>
      if sqliteLe x.created_time r.created_time then r :: x :: xs
      else x :: insertByCreatedDesc r xs

/-- Embeds `ORDER BY created_time DESC`: one concrete ordering satisfying it. -/
def sortRowsDesc : List RssRow → List RssRow
  | [] => []
  | r :: rs => insertByCreatedDesc r (sortRowsDesc rs)

/-- Non-increasing creation timestamps along the list. -/
def descChain (l : List RssRow) : Prop :=
  List.Chain' (fun a b => sqliteLe b.created_time a.created_time = true) l

/-- The feed item link: `f"{BASE_URL}/{table}/{r['slug']}"` — no `.html`. -/
def rssLink (table : String) (slug : Val) : String :=
  BASE_URL ++ "/" ++ table ++ "/" ++ valStr slug

/-- Embeds `items_xml` accumulation: `items_xml += <item text>` over the rows. -/
def rssItemsGo (itemOf : RssRow → Option String) (acc : String) :
    List RssRow → Option String
  | [] => some acc
  | r :: rs =>
      match itemOf r with
      | none => none
      | some i => rssItemsGo itemOf (acc ++ i) rs

def rssItems (itemOf : RssRow → Option String) (rows : List RssRow) : Option String :=
  rssItemsGo itemOf "" rows

/-- Definition of `rssItemsGo` without an accumulator: concatenate the items in order. -/
def rssItemsSeq (itemOf : RssRow → Option String) : List RssRow → Option String
  | [] => some ""
  | r :: rs =>
      match itemOf r with
      | none => none
      | some i => (rssItemsSeq itemOf rs).map (i ++ ·)

namespace M

/-- Embeds `main.py` line 215: `'name' if table == 'authors' else 'title'`. -/
def title_col (table : String) : String :=
  if table = "authors" then "name" else "title"

/-- The f-string of `main.py` lines 243-252 (title already XML-escaped at
line 227, link from line 224, pubDate from lines 238-241, body embedded
verbatim in the CDATA block). -/
def rss_item (table : String) (r : RssRow) : Option String :=
  (pubDateOf r.created_time).map fun dt =>
    "\n    <item>\n      <title>" ++ xml_escape (valStr r.title) ++
    "</title>\n      <guid>" ++ rssLink table r.slug ++
    "</guid>\n      <link>" ++ rssLink table r.slug ++
    "</link>\n      <pubDate>" ++ dt ++
    "</pubDate>\n      <description>\n        <![CDATA[ " ++ valStr r.html ++
    " ]]>\n      </description>\n    </item>"

/-- The channel wrapper of `main.py` lines 254-261, built once after the
loop. -/
def rss_wrap (table items : String) : String :=
  "<rss xmlns:atom=\"http://www.w3.org/2005/Atom\" version=\"2.0\">\n  <channel>\n    <title>" ++
  table ++ " | danielfalbo</title>\n    <link>" ++ BASE_URL ++ "/" ++ table ++
  "</link>\n    <description>Latest entries from " ++ table ++
  "</description>\n    " ++ items ++ "\n  </channel>\n</rss>"

/-- Embeds `generate_rss` of `main.py` (lines 210-263) up to the produced feed
text: project the SELECT list, sort newest-first, emit the items, wrap
once. -/
def generate_rss_content (table : String) (rows : List Row) : Option String :=
  (projectAll (title_col table) rows).bind fun prows =>
    (rssItems (rss_item table) (sortRowsDesc prows)).map (rss_wrap table)

end M

namespace P

/-- The f-string of `prev.py` lines 449-457 (its own indentation). -/
def rss_item (table : String) (r : RssRow) : Option String :=
  (pubDateOf r.created_time).map fun dt =>
    "<item>\n          <title>" ++ xml_escape (valStr r.title) ++
    "</title>\n          <guid>" ++ rssLink table r.slug ++
    "</guid>\n          <link>" ++ rssLink table r.slug ++
    "</link>\n          <pubDate>" ++ dt ++
    "</pubDate>\n          <description>\n            <![CDATA[ " ++ valStr r.html ++
    " ]]>\n          </description>\n        </item>"

/-- The channel wrapper of `prev.py` lines 459-466 (rebuilt inside the
per-row loop). -/
def rss_wrap (table items : String) : String :=
  "<rss xmlns:atom=\"http://www.w3.org/2005/Atom\" version=\"2.0\">\n          <channel>\n            <title>" ++
  table ++ " | danielfalbo</title>\n            <link>" ++ BASE_URL ++ "/" ++ table ++
  "</link>\n            <description>Latest entries from " ++ table ++
  "</description>\n            " ++ items ++ "\n          </channel>\n        </rss>"

/-- The per-row loop of `prev.py` `generate_rss` lines 428-466: state is
`items_xml` (the accumulator) and the last value assigned to
`rss_content`, which starts unbound — reaching the final `write_file`
with it still unbound (empty table) is a `NameError`, `none`. -/
def generate_rss_go (table : String) : List RssRow → String → Option String → Option String
  | [], _, rss => rss
  | r :: rs, acc, _ =>
      match rss_item table r with
      | none => none
      | some i => generate_rss_go table rs (acc ++ i) (some (rss_wrap table (acc ++ i)))

/-- Embeds `prev.py` line 32: tables for which `generate_all` calls
`generate_rss` (a set literal; modelled as a list, membership is what
matters). -/
def RSS_TABLES : List String := ["weblog", "bookmarks"]

/-- Embeds `generate_rss` of `prev.py` (lines 418-468) up to the produced feed
text: `title_col` is always `'title'` (line 422). -/
def generate_rss_content (table : String) (rows : List Row) : Option String :=
  (projectAll "title" rows).bind fun prows =>
    generate_rss_go table (sortRowsDesc prows) "" none

/-- The same emission done the `main.py` way: collect all items, then
build the document once, with `prev.py`'s own item/channel text. -/
def build_once (table : String) (prows : List RssRow) : Option String :=
  (rssItemsSeq (rss_item table) prows).map (rss_wrap table)

end P

/-! ## HTML functional components (`prev.py` lines 104-273)

`h(tag, props, *children)` joins `key="value"` pairs with spaces (note the
space after the tag name even with no props) and concatenates the
children.  `layout` wraps a head (title, style, meta, favicon link) and a
body around the joined content.  The page builders index the entry dict
with fixed keys; they require those values to be `str` (otherwise
`"".join` raises), so they are embedded over a `String`-field view. -/

def h (tag : String) (props : List (String × String)) (children : List String) : String :=
  "<" ++ tag ++ " " ++
    String.intercalate " " (props.map fun p => p.1 ++ "=\"" ++ p.2 ++ "\"") ++
  ">" ++ String.join children ++ "</" ++ tag ++ ">"

def DOT : String := h "span" [] [" \xC2\xB7 "]

def NAVBAR : String :=
  h "p" []
    [h "a" [("href", "/index.html")] ["root"],
     DOT, h "a" [("href", "/weblog/code.html")] ["code"],
     DOT, h "a" [("href", "/weblog/words.html")] ["words"]]

/-- Embeds `layout(title, css, body_content_list)`; the builders that pass a
single pre-joined string are embedded as the one-element list (Python's
`"".join` over a `str` returns it unchanged). -/
def layout (title css : String) (body_content_list : List String) : String :=
  "<!doctype html>" ++
  h "html" []
    [h "head" []
      [h "title" [] [title ++ " | danielfalbo"],
       h "style" [] [css],
       "<meta charset=\"UTF-8\">",
       "<link rel=\"icon\" type=\"image/x-icon\" href=\"/favicon.ico\">"],
     h "body" [] [String.join body_content_list]]

def title_component (title_str : String) : String :=
  h "p"
    [("style", "font-size: 3rem;\n                                font-weight: 700; margin: 0px;\n                                word-break: break-word;\n                                text-transform: uppercase;")]
    [title_str]

def table_index_page (css table html : String) : String :=
  layout table css [NAVBAR, title_component table, html]

/-- The `String`-valued fields `entry_page` / `author_page` read. -/
structure PageEntry where
  title : String
  context : String
  html : String
deriving DecidableEq

def entry_page (css : String) (entry : PageEntry) : String :=
  layout entry.title css
    [String.join [NAVBAR, title_component entry.title, entry.context, entry.html]]

structure PageAuthor where
  name : String
  context : String
deriving DecidableEq

def author_page (css : String) (entry : PageAuthor) : String :=
  layout entry.name css
    [String.join [NAVBAR, title_component entry.name, entry.context]]

/-! ## The date-age fragment

`prev.py` appends `dateage_js(created_time)` — a fixed JS text with the
creation timestamp and the birthday constant interpolated — to the body.
The constant pieces below are the exact string contents of
`dateage_js` (lines 275-331, the two `" ".join`-ed parts). -/

def AUTHOR_BIRTHDAY : String := "2003-12-10T13:30:00+01:00"

def dateage_pre : String :=
  "\n" ++
  "<script>\n" ++
  "    const createdStr = \""

def dateage_mid : String :=
  "\";\n" ++
  "    const birthStr = \""

def dateage_suf : String :=
  "\";\n" ++
  "         \n" ++
  "const container = document.getElementById(\"dateage\");\n" ++
  "\n" ++
  "const formatDate = (dateString, birthString) => \x7b\n" ++
  "    const MS_PER_YEAR = 1000 * 60 * 60 * 24 * 365.2425;\n" ++
  "\n" ++
  "    const targetDate = new Date(dateString);\n" ++
  "    const birthDate = new Date(birthString);\n" ++
  "    const now = new Date();\n" ++
  "\n" ++
  "    // Calculate time difference relative to now (client-side)\n" ++
  "    const timeDifference = Math.abs(now.getTime() - targetDate.getTime());\n" ++
  "    const daysAgo = Math.floor(timeDifference / (1000 * 60 * 60 * 24));\n" ++
  "\n" ++
  "    // Calculate age at the created_time of the entry\n" ++
  "    const ageAtPostTime = (\n" ++
  "        (targetDate.getTime() - birthDate.getTime()) / MS_PER_YEAR\n" ++
  "    );\n" ++
  "    const ageSuffix = ageAtPostTime >= 0\n" ++
  "      ? \x60, $\x7bageAtPostTime.toFixed(2)\x7d y.o.\x60\n" ++
  "      : \x27\x27;\n" ++
  "\n" ++
  "    // Format the display date (e.g. \"December 15, 2022\")\n" ++
  "    const fullDate = targetDate.toLocaleString(\x27en-us\x27, \x7b\n" ++
  "      month: \x27long\x27, day: \x27numeric\x27, year: \x27numeric\x27\n" ++
  "    \x7d);\n" ++
  "\n" ++
  "    // Return the string based on \"Ago\" buckets\n" ++
  "    if (daysAgo < 1) \x7b\n" ++
  "      return \x27Today\x27;\n" ++
  "    \x7d else if (daysAgo < 7) \x7b\n" ++
  "      return \x60$\x7bfullDate\x7d ($\x7bdaysAgo\x7dd ago$\x7bageSuffix\x7d)\x60;\n" ++
  "    \x7d else if (daysAgo < 30) \x7b\n" ++
  "      const weeksAgo = Math.floor(daysAgo / 7);\n" ++
  "      return \x60$\x7bfullDate\x7d ($\x7bweeksAgo\x7dw ago$\x7bageSuffix\x7d)\x60;\n" ++
  "    \x7d else if (daysAgo < 365) \x7b\n" ++
  "      const monthsAgo = Math.floor(daysAgo / 30);\n" ++
  "      return \x60$\x7bfullDate\x7d ($\x7bmonthsAgo\x7dmo ago$\x7bageSuffix\x7d)\x60;\n" ++
  "    \x7d else \x7b\n" ++
  "      const yearsAgo = Math.floor(daysAgo / 365);\n" ++
  "      return \x60$\x7bfullDate\x7d ($\x7byearsAgo\x7dy ago$\x7bageSuffix\x7d)\x60;\n" ++
  "    \x7d\n" ++
  "\x7d;\n" ++
  "\n" ++
  "// Render\n" ++
  "container.innerText = \x60written on $\x7bformatDate(createdStr, birthStr)\x7d\x60\n" ++
  "</script>\n" ++
  "        "

/-- Embeds `dateage_js(created_time)` from `prev.py`: the f-string part (with the
timestamp and birthday spliced in) joined to the constant part. -/
def dateage_js (created_time : String) : String :=
  dateage_pre ++ created_time ++ dateage_mid ++ AUTHOR_BIRTHDAY ++ dateage_suf

/-! ## `gen_tmpl_values` (`prev.py` lines 335-387, `main.py` lines 120-176)

Both variants build `{r['slug']: {**dict(r), 'context': ''} for r in rows}`
(a dict keyed by the slug *value*; a later duplicate slug overwrites the
earlier entry in place), massage the `html` value with the date-age
fragment, and then append relationship links to `context`.

The relationship join queries are executed by SQLite; a declaration is
embedded together with its join result (the `(a_slug, b_slug)` pairs in
the order the query returns them). -/

abbrev Entry := List (String × Val)

/-- Embeds `{**dict(r), 'context': ''}`. -/
def initEntry (r : Row) : Entry := setA r "context" (Val.text "")

/-- The dict comprehension, left to right; `r['slug']` raising `KeyError`
on a slug-less row aborts. -/
def initTvsGo (acc : List (Val × Entry)) : List Row → Option (List (Val × Entry))
  | [] => some acc
  | r :: rs =>
      match lookupA r "slug" with
      | none => none
      | some sv => initTvsGo (setA acc sv (initEntry r)) rs

def initTvs (rows : List Row) : Option (List (Val × Entry)) := initTvsGo [] rows

/-- Python's `d.get(k, None)` view used by the dateage guard: key absent
and NULL value are both `None`. -/
def getOpt (e : Entry) (k : String) : Option Val :=
  match lookupA e k with
  | none => none
  | some Val.null => none
  | some v => some v

/-- Map a fallible per-entry step over the dict (the `for slug in ...`
loops mutate each entry independently; an exception aborts). -/
def mapEntriesM (f : Entry → Option Entry) : List (Val × Entry) → Option (List (Val × Entry))
  | [] => some []
  | (k, e) :: rest =>
      match f e with
      | none => none
      | some e2 => (mapEntriesM f rest).map ((k, e2) :: ·)

/-- A relationship declaration from the `RELATIONSHIPS` table, bundled
with the result its join query returned (`SELECT a.slug AS a_slug,
b.slug AS b_slug FROM <other> b JOIN <junction> j ON b.id = j.<b_fk>
JOIN <table> a ON a.id = j.<a_fk>`), in query-result order. -/
structure RelDecl where
  junction : String
  this_id_col : String
  this_junction_id_col : String
  other : String
  other_id_col : String
  other_junction_id_col : String
  joinResult : List (Val × Val)
deriving DecidableEq

/-- Embeds `relations_map` update: first occurrence of a source slug appends a
new group at the end; later pairs append to its list in place. -/
def groupAdd (m : List (Val × List Val)) (k : Val) (t : Val) : List (Val × List Val) :=
  match lookupA m k with
  | some _ => updateA m k (fun l => l ++ [t])
  | none => m ++ [(k, [t])]

def groupPairsGo (acc : List (Val × List Val)) : List (Val × Val) → List (Val × List Val)
  | [] => acc
  | (s, t) :: ps => groupPairsGo (groupAdd acc s t) ps

/-- The `relations_map` dict built from the join result. -/
def groupPairs (pairs : List (Val × Val)) : List (Val × List Val) :=
  groupPairsGo [] pairs

/-- Embeds `tmpl_values_by_slug[row_slug]['context']`: `initEntry` always sets
`context` to empty text and only the resolver's `+=` rewrites it, so the
value is always text. -/
def ctxOf (e : Entry) : String :=
  match lookupA e "context" with
  | some (Val.text c) => c
  | _ => ""

def addCtx (links : String) (e : Entry) : Entry :=
  setA e "context" (Val.text (ctxOf e ++ links))

def linksHtml (link : String → Val → String) (b : String) (ts : List Val) : String :=
  String.join (ts.map (link b))

/-- One declaration's `for row_slug, rel_slugs in relations_map.items()`
loop: append that row's links to its context, skipping slugs that are not
dict keys. -/
def applyDecl (link : String → Val → String) (tvs : List (Val × Entry)) (d : RelDecl) :
    List (Val × Entry) :=
  (groupPairs d.joinResult).foldl
    (fun acc g =>
      if (lookupA acc g.1).isSome then
        updateA acc g.1 (addCtx (linksHtml link d.other g.2))
      else acc)
    tvs

/-- The `for j, a_id, j_a_id, b, b_id, j_b_id in RELATIONSHIPS[table]`
loop (declaration order). -/
def resolveRels (link : String → Val → String) (decls : List RelDecl)
    (tvs : List (Val × Entry)) : List (Val × Entry) :=
  decls.foldl (applyDecl link) tvs

namespace P

/-- The link text `h('p', {}, h('a', {'href': f'../{b}/{s}.html'}, f'/{b}/{s}'))`. -/
def rel_link (b : String) (s : Val) : String :=
  h "p" [] [h "a" [("href", "../" ++ b ++ "/" ++ valStr s ++ ".html")]
    ["/" ++ b ++ "/" ++ valStr s]]

/-- The dateage pass of `prev.py` lines 348-353: skip when `html` or
`created_time` is `None`; otherwise `+=` the fragment (a `TypeError` if
the body is not text). -/
def dateage_entry (e : Entry) : Option Entry :=
  match getOpt e "html" with
  | none => some e
  | some hv =>
      match getOpt e "created_time" with
      | none => some e
      | some cv =>
          match hv with
          | Val.text hs => some (setA e "html" (Val.text (hs ++ dateage_js (valStr cv))))
          | _ => none

/-- Embeds `gen_tmpl_values(db, table)` from `prev.py`, as a function of the
fetched rows and of the declared relationships with their join results
(`decls = []` when the table is not in `RELATIONSHIPS`). -/
def gen_tmpl_values (rows : List Row) (decls : List RelDecl) :
    Option (List (Val × Entry)) :=
  match initTvs rows with
  | none => none
  | some tvs0 =>
      match mapEntriesM dateage_entry tvs0 with
      | none => none
      | some tvs1 => some (resolveRels rel_link decls tvs1)

end P

namespace M

/-- The link f-string `f'<p><a href="../{b}/{s}.html">/{b}/{s}</a></p>'`. -/
def rel_link (b : String) (s : Val) : String :=
  "<p><a href=\"../" ++ b ++ "/" ++ valStr s ++ ".html\">/" ++ b ++ "/" ++ valStr s ++ "</a></p>"

/-- The dateage pass of `main.py` lines 132-144: the *stored body itself*
is used as a format string, `html.format(dateage=cmps['dateage'].format(
created_time=..., AUTHOR_BIRTHDAY=...))`. -/
def dateage_entry (dateageCmp : String) (e : Entry) : Option Entry :=
  match getOpt e "html" with
  | none => some e
  | some hv =>
      match getOpt e "created_time" with
      | none => some e
      | some cv =>
          match hv with
          | Val.text hs =>
              match pyFormat
                  (fun n =>
                    if n = "created_time" then some (valStr cv)
                    else if n = "AUTHOR_BIRTHDAY" then some AUTHOR_BIRTHDAY
                    else none)
                  dateageCmp with
              | none => none
              | some frag =>
                  match pyFormat (fun n => if n = "dateage" then some frag else none) hs with
                  | none => none
                  | some hs2 => some (setA e "html" (Val.text hs2))
          | _ => none

/-- Embeds `gen_tmpl_values(db, table, cmps)` from `main.py`, parametrised by the
text of the `dateage` component (an external asset). -/
def gen_tmpl_values (dateageCmp : String) (rows : List Row) (decls : List RelDecl) :
    Option (List (Val × Entry)) :=
  match initTvs rows with
  | none => none
  | some tvs0 =>
      match mapEntriesM (dateage_entry dateageCmp) tvs0 with
      | none => none
      | some tvs1 => some (resolveRels rel_link decls tvs1)

end M

/-- Modelled from the spec: the `dateage` component template
(`components/dateage.html`, an external asset not present in the source
tree).  Per the spec it is a date-age widget rendered from the literal
creation timestamp and the fixed reference birthdate, so it carries the
two placeholders `gen_tmpl_values` fills. -/
def dateage_cmp : String :=
  "<p id=\"dateage\"></p><script>const createdStr = \"{created_time}\"; const birthStr = \"{AUTHOR_BIRTHDAY}\";</script>"

/-! ## Section generation (`generate_section`)

`prev.py` lines 389-416 and `main.py` lines 178-208.  Both write one entry
page per dict item (in dict order) and then the table index page; they
differ in how the index list is built: `prev.py` skips rows whose
`listed` value is falsy (`row.get('listed', 1)`), `main.py` has no such
check.  File writes are modelled as `(path, content)` pairs in write
order. -/

/-- Embeds `DIST_DIR / table / f"{slug}.html"`. -/
def entryPagePath (table : String) (slug : Val) : String :=
  "dist/" ++ table ++ "/" ++ valStr slug ++ ".html"

/-- Embeds `DIST_DIR / f"{table}.html"`. -/
def indexPagePath (table : String) : String :=
  "dist/" ++ table ++ ".html"

namespace P

/-- Embeds `row.get('listed', 1)` truthiness (line 405). -/
def listedB (row : Entry) : Bool :=
  pyTruthy ((lookupA row "listed").getD (Val.int 1))

/-- Embeds `row.get('title', row.get('name', slug))` (line 407), then f-string
conversion. -/
def labelOf (row : Entry) (slug : Val) : String :=
  match lookupA row "title" with
  | some v => valStr v
  | none =>
      match lookupA row "name" with
      | some v => valStr v
      | none => valStr slug

/-- The index row f-string of lines 409-411. -/
def index_link (table : String) (slug : Val) (label : String) : String :=
  "<p>\n                <a href=\"./" ++ table ++ "/" ++ valStr slug ++ ".html\">" ++
    label ++ "</a>\n            </p>"

/-- The `index_content_html += ...` accumulation of the per-row loop
(lines 397-411): a link is appended only when `row.get('listed', 1)` is
truthy. -/
def index_content_go (table : String) (acc : String) : List (Val × Entry) → String
  | [] => acc
  | (slug, row) :: rest =>
      if listedB row then
        index_content_go table (acc ++ index_link table slug (labelOf row slug)) rest
      else index_content_go table acc rest

def index_content (table : String) (values : List (Val × Entry)) : String :=
  index_content_go table "" values

/-- The writes `generate_section` performs, given the template values dict:
one entry page per row (written inside the loop, for listed and unlisted
rows alike), then the index page. -/
def generate_section_writes (css table : String) (builder : String → Entry → String)
    (values : List (Val × Entry)) : List (String × String) :=
  (values.foldl (fun acc p => acc ++ [(entryPagePath table p.1, builder css p.2)]) []) ++
  [(indexPagePath table, table_index_page css table (index_content table values))]

end P

namespace M

/-- The index row f-string of `main.py` lines 200-202 (no `listed` check;
label is always `/{table}/{slug}`). -/
def index_link (table : String) (slug : Val) : String :=
  "<p>\n            <a href=\"./" ++ table ++ "/" ++ valStr slug ++ ".html\">/" ++
    table ++ "/" ++ valStr slug ++ "</a>\n        </p>"

/-- The `index_content_html += ...` accumulation of `main.py`'s loop
(lines 193-202): every row gets a link, there is no `listed` check. -/
def index_content_go (table : String) (acc : String) : List (Val × Entry) → String
  | [] => acc
  | (slug, _) :: rest => index_content_go table (acc ++ index_link table slug) rest

def index_content (table : String) (values : List (Val × Entry)) : String :=
  index_content_go table "" values

/-- Embeds `tmpl.format(css=css, **row)` (line 195). -/
def render_entry (tmpl css : String) (row : Entry) : Option String :=
  pyFormat (fun n => if n = "css" then some css else (lookupA row n).map valStr) tmpl

end M

/-! ## Watch mode startup (`watch_buffer`)

`prev.py` lines 505-516 and `main.py` lines 308-319 are identical up to
entering the kqueue loop: fetch the one row for `(table, slug)`; if the
fetch returns nothing, `die_with_honor` prints one line to stderr and
exits with status 1 — before the buffer file is opened, before the loop,
with no output file written. -/

structure ProcOutcome where
  errLines : List String
  exitCode : Option Nat
  writes : List (String × String)
  enteredLoop : Bool
deriving DecidableEq

/-- Embeds `die_with_honor(msg)`: one line to stderr, `sys.exit(1)`. -/
def die_with_honor (msg : String) : ProcOutcome :=
  { errLines := [msg], exitCode := some 1, writes := [], enteredLoop := false }

/-- Embeds `watch_buffer(table, slug)` up to entering the watch loop, as a
function of the row fetched by
`SELECT * FROM <table> WHERE slug='<slug>'`. -/
def watch_buffer_startup (table slug : String) (fetched : Option Row) : ProcOutcome :=
  match fetched with
  | none =>
      die_with_honor ("Slug \x27" ++ slug ++ "\x27 not found in table \x27" ++ table ++ "\x27")
  | some _ =>
      { errLines := [], exitCode := none, writes := [], enteredLoop := true }

/-! ## Association-list and grouping lemmas for the resolver -/

def keysOf {α β : Type} (m : List (α × β)) : List α := m.map Prod.fst

/-- The targets a given source slug has in a join result, in result
order. -/
def targetsOf (k : Val) (pairs : List (Val × Val)) : List Val :=
  pairs.filterMap (fun p => if p.1 = k then some p.2 else none)

def c5wRows : List Row := [[("slug", Val.text "a")]]

def c5wDecls : List RelDecl :=
  [{ junction := "bookmark_authors", this_id_col := "id",
     this_junction_id_col := "bookmark_id", other := "authors",
     other_id_col := "id", other_junction_id_col := "author_id",
     joinResult := [(Val.text "a", Val.text "x"), (Val.text "a", Val.text "y")] }]

def c7wRow : RssRow :=
  ⟨Val.text "hello", Val.text "T", Val.text "2024-01-01 10:00:00", Val.text "<p>x</p>"⟩

def c7wDt : String := "Mon, 01 Jan 2024 00:00:00 +0000"

def c8wRow : RssRow :=
  ⟨Val.text "post", Val.text "A & B <i>", Val.text "2022-12-15", Val.text "<p>body</p>"⟩

def c8wDt : String := "Thu, 15 Dec 2022 00:00:00 +0000"

def c3wRow : Row :=
  [("slug", Val.text "s1"), ("name", Val.text "N"), ("title", Val.text "T"),
   ("created_time", Val.text "2024-01-01"), ("html", Val.text "<p>h</p>")]

def c2wRow : Row :=
  [("slug", Val.text "a"), ("title", Val.text "A"),
   ("created_time", Val.text "2024-01-01 00:00:00"), ("html", Val.text "<p>x</p>")]

def c1wRows : List Row :=
  [[("slug", Val.text "a"), ("html", Val.text "\x7bx\x7d"),
    ("created_time", Val.text "2024-01-01")]]

/-- The slug column of each row, in row order (`KeyError` if absent). -/
def rowSlugs : List Row → Option (List Val)
  | [] => some []
  | r :: rs =>
      match lookupA r "slug" with
      | none => none
      | some sv => (rowSlugs rs).map (sv :: ·)

def c10wRows : List Row :=
  [[("slug", Val.text "a"), ("html", Val.text "\x7b\x7bx\x7d\x7d"),
    ("created_time", Val.text "2024-01-01")]]

def c10vRow : Row := [("slug", Val.text "a"), ("title", Val.text "T")]

def c10vRows : List Row := [c10vRow]

def c10vTvs : List (Val × Entry) := (P.gen_tmpl_values c10vRows []).getD []

def c10vE : Entry := (lookupA c10vTvs (Val.text "a")).getD []

theorem lookupA_setA_same {α β : Type} [DecidableEq α] (l : List (α × β)) (k : α) (v : β) :
    lookupA (setA l k v) k = some v := by
  induction l with
  | nil => simp [setA, lookupA]
  | cons hd tl ih =>
      obtain ⟨k0, v0⟩ := hd
      by_cases h : k = k0 <;> simp [setA, lookupA, h, ih]

theorem lookupA_setA_other {α β : Type} [DecidableEq α] (l : List (α × β)) (k k' : α) (v : β)
    (h : k' ≠ k) : lookupA (setA l k v) k' = lookupA l k' := by
  induction l with
  | nil => simp [setA, lookupA, h]
  | cons hd tl ih =>
      obtain ⟨k0, v0⟩ := hd
      by_cases hk : k = k0
      · subst hk; simp [setA, lookupA, h]
      · by_cases hk' : k' = k0 <;> simp [setA, lookupA, hk, hk', ih]

theorem lookupA_updateA_same {α β : Type} [DecidableEq α] (l : List (α × β)) (k : α) (f : β → β) :
    lookupA (updateA l k f) k = (lookupA l k).map f := by
  induction l with
  | nil => simp [updateA, lookupA]
  | cons hd tl ih =>
      obtain ⟨k0, v0⟩ := hd
      by_cases h : k = k0 <;> simp [updateA, lookupA, h, ih]

theorem lookupA_updateA_other {α β : Type} [DecidableEq α] (l : List (α × β)) (k k' : α)
    (f : β → β) (h : k' ≠ k) : lookupA (updateA l k f) k' = lookupA l k' := by
  induction l with
  | nil => simp [updateA, lookupA]
  | cons hd tl ih =>
      obtain ⟨k0, v0⟩ := hd
      by_cases hk : k = k0
      · subst hk; simp [updateA, lookupA, h]
      · by_cases hk' : k' = k0 <;> simp [updateA, lookupA, hk, hk', ih]

theorem fmtTok_top_cons (c : Char) (rest : List Char) :
    fmtTok FMode.top (c :: rest) =
      (if c = '{' then
        match rest with
        | [] => none
        | c2 :: rest2 =>
            if c2 = '{' then (fmtTok FMode.top rest2).map (FTok.text '{' :: ·)
            else fmtTok (FMode.inName []) (c2 :: rest2)
      else if c = '}' then
        match rest with
        | [] => none
        | c2 :: rest2 =>
            if c2 = '}' then (fmtTok FMode.top rest2).map (FTok.text '}' :: ·)
            else none
      else (fmtTok FMode.top rest).map (FTok.text c :: ·)) := by
  rw [fmtTok.eq_def]

theorem fmtTok_inName_cons (acc : List Char) (c : Char) (rest : List Char) :
    fmtTok (FMode.inName acc) (c :: rest) =
      (if c = '}' then (fmtTok FMode.top rest).map (FTok.field acc :: ·)
      else if c = '{' then none
      else fmtTok (FMode.inName (acc ++ [c])) rest) := by
  rw [fmtTok.eq_def]

theorem fmtTok_braceFree_append (pre l : List Char) (h : braceFree pre = true) :
    fmtTok FMode.top (pre ++ l) = (fmtTok FMode.top l).map (pre.map FTok.text ++ ·) := by
  induction pre with
  | nil =>
      simp only [List.nil_append, List.map_nil]
      cases fmtTok FMode.top l <;> simp
  | cons c cs ih =>
      simp only [braceFree, List.all_cons, Bool.and_eq_true, decide_eq_true_eq] at h
      obtain ⟨⟨h1, h2⟩, h3⟩ := h
      have ih' := ih (by simpa [braceFree] using h3)
      simp only [List.cons_append, List.map_cons]
      rw [fmtTok_top_cons]
      simp only [if_neg h1, if_neg h2, ih']
      cases fmtTok FMode.top l <;> simp

theorem fmtTok_inName (post : List Char) :
    ∀ (nm acc : List Char), nameOK nm = true →
    fmtTok (FMode.inName acc) (nm ++ '}' :: post) =
      (fmtTok FMode.top post).map (FTok.field (acc ++ nm) :: ·) := by
  intro nm
  induction nm with
  | nil => intro acc _; simp [fmtTok]
  | cons c cs ih =>
      intro acc h
      simp only [nameOK, braceFree, List.all_cons, Bool.and_eq_true, decide_eq_true_eq] at h
      obtain ⟨⟨h1, h2⟩, h3⟩ := h
      simp only [List.cons_append]
      rw [fmtTok_inName_cons]
      simp only [if_neg h2, if_neg h1]
      rw [ih (acc ++ [c]) (by simpa [nameOK, braceFree] using h3)]
      simp

theorem fmtTok_field (nm post : List Char) (h : nameOK nm = true) :
    fmtTok FMode.top ('{' :: (nm ++ '}' :: post)) =
      (fmtTok FMode.top post).map (FTok.field nm :: ·) := by
  cases nm with
  | nil => simp [fmtTok]
  | cons c cs =>
      have h1 : c ≠ '{' := by
        simp only [nameOK, braceFree, List.all_cons, Bool.and_eq_true, decide_eq_true_eq] at h
        exact h.1.1
      simp only [List.cons_append]
      rw [fmtTok_top_cons]
      simp only [reduceIte, if_neg h1]
      have := fmtTok_inName post (c :: cs) [] h
      simpa using this

theorem fmtSubst_text_append (get : String → Option String) (pre : List Char)
    (ts : List FTok) :
    fmtSubst get (pre.map FTok.text ++ ts) = (fmtSubst get ts).map (pre ++ ·) := by
  induction pre with
  | nil =>
      simp only [List.map_nil, List.nil_append]
      cases fmtSubst get ts <;> simp
  | cons c cs ih =>
      simp only [List.map_cons, List.cons_append]
      rw [fmtSubst, ih]
      cases fmtSubst get ts <;> simp

theorem fmtTok_braceFree (l : List Char) (h : braceFree l = true) :
    fmtTok FMode.top l = some (l.map FTok.text) := by
  have h0 : fmtTok FMode.top ([] : List Char) = some [] := by decide
  have := fmtTok_braceFree_append l [] h
  rw [List.append_nil, h0] at this
  simp only [Option.map_some', List.append_nil] at this
  exact this

theorem fmtSubst_text (get : String → Option String) (l : List Char) :
    fmtSubst get (l.map FTok.text) = some l := by
  have h0 : fmtSubst get ([] : List FTok) = some [] := rfl
  have := fmtSubst_text_append get l []
  rw [List.append_nil, h0] at this
  simp only [Option.map_some', List.append_nil] at this
  exact this

/-- The substitution mechanism inserts a field's value verbatim: for a
template made of literal text around one `{name}` field, the result is the
literal text around the raw value, whatever characters the value holds. -/
theorem pyFormat_single_field (get : String → Option String) (pre nm post : List Char)
    (v : String) (hpre : braceFree pre = true) (hnm : nameOK nm = true)
    (hpost : braceFree post = true) (hv : get (String.mk nm) = some v) :
    pyFormat get (String.mk (pre ++ '{' :: (nm ++ '}' :: post))) =
      some (String.mk (pre ++ v.data ++ post)) := by
  unfold pyFormat
  rw [show (String.mk (pre ++ '{' :: (nm ++ '}' :: post))).data
        = pre ++ '{' :: (nm ++ '}' :: post) from rfl]
  rw [fmtTok_braceFree_append _ _ hpre, fmtTok_field _ _ hnm, fmtTok_braceFree _ hpost]
  simp only [Option.map_some', Option.some_bind]
  rw [fmtSubst_text_append]
  rw [show fmtSubst get (FTok.field nm :: post.map FTok.text)
        = (match get (String.mk nm) with
           | none => none
           | some v => (fmtSubst get (post.map FTok.text)).map (v.data ++ ·)) from rfl]
  rw [hv, fmtSubst_text]
  simp [List.append_assoc]

/-- A field whose name is not among the keyword arguments is a `KeyError`:
the whole substitution fails. -/
theorem pyFormat_single_field_missing (get : String → Option String) (pre nm post : List Char)
    (hpre : braceFree pre = true) (hnm : nameOK nm = true)
    (hpost : braceFree post = true) (hv : get (String.mk nm) = none) :
    pyFormat get (String.mk (pre ++ '{' :: (nm ++ '}' :: post))) = none := by
  unfold pyFormat
  rw [show (String.mk (pre ++ '{' :: (nm ++ '}' :: post))).data
        = pre ++ '{' :: (nm ++ '}' :: post) from rfl]
  rw [fmtTok_braceFree_append _ _ hpre, fmtTok_field _ _ hnm, fmtTok_braceFree _ hpost]
  simp only [Option.map_some', Option.some_bind]
  rw [fmtSubst_text_append]
  rw [show fmtSubst get (FTok.field nm :: post.map FTok.text)
        = (match get (String.mk nm) with
           | none => none
           | some v => (fmtSubst get (post.map FTok.text)).map (v.data ++ ·)) from rfl]
  rw [hv]
  rfl

/-- A template with no braces at all is passed through unchanged. -/
theorem pyFormat_braceFree (get : String → Option String) (s : String)
    (h : braceFree s.data = true) : pyFormat get s = some s := by
  unfold pyFormat
  rw [fmtTok_braceFree _ h]
  simp [fmtSubst_text]

theorem replace1_append (c : Char) (rep l1 l2 : List Char) :
    replace1 c rep (l1 ++ l2) = replace1 c rep l1 ++ replace1 c rep l2 := by
  induction l1 with
  | nil => simp [replace1]
  | cons x xs ih => simp [replace1, ih]

/-- The three sequential replaces are one single pass: escaping `&` first
introduces no new `<` or `>`, and the entities introduced later contain no
later-escaped characters. -/
theorem xml_escape_single_pass (s : String) : xml_escape s = String.mk (escAll s.data) := by
  unfold xml_escape
  congr 1
  induction s.data with
  | nil => simp [replace1, escAll]
  | cons c rest ih =>
      rw [show replace1 '&' "&amp;".data (c :: rest)
            = (if c = '&' then "&amp;".data else [c]) ++ replace1 '&' "&amp;".data rest
          from rfl]
      rw [replace1_append, replace1_append, escAll, ih]
      congr 1
      by_cases h1 : c = '&'
      · subst h1; decide
      · by_cases h2 : c = '<'
        · subst h2; decide
        · by_cases h3 : c = '>'
          · subst h3; decide
          · simp [escChar, replace1, h1, h2, h3]

/-- A character other than `&`, `<`, `>` is left unchanged by the escape. -/
theorem escChar_other (c : Char) (h1 : c ≠ '&') (h2 : c ≠ '<') (h3 : c ≠ '>') :
    escChar c = [c] := by simp [escChar, h1, h2, h3]

theorem wellEscaped_amp (rest : List Char) :
    wellEscaped ('&' :: 'a' :: 'm' :: 'p' :: ';' :: rest) = wellEscaped rest := rfl

theorem wellEscaped_lt (rest : List Char) :
    wellEscaped ('&' :: 'l' :: 't' :: ';' :: rest) = wellEscaped rest := rfl

theorem wellEscaped_gt (rest : List Char) :
    wellEscaped ('&' :: 'g' :: 't' :: ';' :: rest) = wellEscaped rest := rfl

theorem wellEscaped_other (c : Char) (rest : List Char)
    (h1 : c ≠ '&') (h2 : c ≠ '<') (h3 : c ≠ '>') :
    wellEscaped (c :: rest) = wellEscaped rest := by
  rw [wellEscaped.eq_def]
  split <;> simp_all

/-- The single-pass escape always produces text-node-safe output. -/
theorem wellEscaped_escAll (l : List Char) : wellEscaped (escAll l) = true := by
  induction l with
  | nil => rfl
  | cons c rest ih =>
      rw [escAll]
      by_cases h1 : c = '&'
      · subst h1
        rw [show escChar '&' = "&amp;".data from rfl]
        rw [show ("&amp;".data ++ escAll rest)
              = '&' :: 'a' :: 'm' :: 'p' :: ';' :: escAll rest from rfl]
        rw [wellEscaped_amp]; exact ih
      · by_cases h2 : c = '<'
        · subst h2
          rw [show escChar '<' = "&lt;".data from rfl]
          rw [show ("&lt;".data ++ escAll rest)
                = '&' :: 'l' :: 't' :: ';' :: escAll rest from rfl]
          rw [wellEscaped_lt]; exact ih
        · by_cases h3 : c = '>'
          · subst h3
            rw [show escChar '>' = "&gt;".data from rfl]
            rw [show ("&gt;".data ++ escAll rest)
                  = '&' :: 'g' :: 't' :: ';' :: escAll rest from rfl]
            rw [wellEscaped_gt]; exact ih
          · rw [escChar_other c h1 h2 h3, List.singleton_append,
                wellEscaped_other c _ h1 h2 h3]
            exact ih

theorem fmtRFC822_midnight_utc (d : Date) :
    ∃ datepart : String, fmtRFC822 d = datepart ++ " 00:00:00 +0000" := by
  exact ⟨_, rfl⟩

theorem takeWhile_nospace (l : List Char) (h : (' ' : Char) ∉ l) :
    l.takeWhile (fun c => c != ' ') = l := by
  induction l with
  | nil => rfl
  | cons c cs ih =>
      simp only [List.mem_cons, not_or] at h
      rw [List.takeWhile_cons]
      have hc : (c != ' ') = true := by simpa using Ne.symm h.1
      rw [hc]
      simp only [if_true]
      rw [ih (by simpa using h.2)]

theorem takeWhile_nospace_append (l suf : List Char) (h : (' ' : Char) ∉ l) :
    (l ++ ' ' :: suf).takeWhile (fun c => c != ' ') = l := by
  induction l with
  | nil => simp [List.takeWhile_cons]
  | cons c cs ih =>
      simp only [List.mem_cons, not_or] at h
      rw [List.cons_append, List.takeWhile_cons]
      have hc : (c != ' ') = true := by simpa using Ne.symm h.1
      rw [hc]
      simp only [if_true]
      rw [ih (by simpa using h.2)]

/-- The time-of-day part of the stored timestamp never influences the
`<pubDate>`: only the characters before the first space are parsed. -/
theorem pubDateOf_ignores_time (datepart timepart : String)
    (h : (' ' : Char) ∉ datepart.data) :
    pubDateOf (Val.text (datepart ++ " " ++ timepart)) =
      pubDateOf (Val.text datepart) := by
  have e1 : firstSpaceField (datepart ++ " " ++ timepart) = datepart := by
    unfold firstSpaceField
    have hsplit : (datepart ++ " " ++ timepart).data
        = datepart.data ++ ' ' :: timepart.data := by
      simp [String.data_append]
    rw [hsplit, takeWhile_nospace_append _ _ h]
  have e2 : firstSpaceField datepart = datepart := by
    unfold firstSpaceField
    rw [takeWhile_nospace _ h]
  simp only [pubDateOf]
  rw [e1, e2]

theorem strLeB_total (a : List Char) : ∀ b, strLeB a b = true ∨ strLeB b a = true := by
  induction a with
  | nil => intro b; left; rfl
  | cons x xs ih =>
      intro b
      cases b with
      | nil => right; rfl
      | cons y ys =>
          by_cases h1 : x.toNat < y.toNat
          · left; simp [strLeB, h1]
          · by_cases h2 : y.toNat < x.toNat
            · right; simp [strLeB, h2]
            · rcases ih ys with h | h
              · left; simp [strLeB, h1, h2, h]
              · right; simp [strLeB, h1, h2, h]

theorem sqliteLe_total (a b : Val) : sqliteLe a b = true ∨ sqliteLe b a = true := by
  cases a with
  | null => left; rfl
  | int m =>
      cases b with
      | null => right; rfl
      | int n =>
          simp only [sqliteLe, decide_eq_true_eq]
          omega
      | text t => left; rfl
  | text s =>
      cases b with
      | null => right; rfl
      | int n => right; rfl
      | text t => exact strLeB_total s.data t.data

theorem insertDesc_head (r : RssRow) (l : List RssRow) :
    (insertByCreatedDesc r l).head? = some r ∨ (insertByCreatedDesc r l).head? = l.head? := by
  cases l with
  | nil => left; rfl
  | cons x xs =>
      rw [insertByCreatedDesc]
      by_cases hc : sqliteLe x.created_time r.created_time = true
      · left; rw [if_pos hc]; rfl
      · right; rw [if_neg hc]; rfl

theorem descChain_insert (r : RssRow) : ∀ l, descChain l → descChain (insertByCreatedDesc r l) := by
  intro l
  induction l with
  | nil => intro _; simp [insertByCreatedDesc, descChain]
  | cons x xs ih =>
      intro h
      rw [insertByCreatedDesc]
      by_cases hc : sqliteLe x.created_time r.created_time = true
      · rw [if_pos hc]
        exact List.Chain'.cons hc h
      · rw [if_neg hc]
        have hxs : descChain xs := List.Chain'.tail h
        have hins := ih hxs
        cases hxs2 : insertByCreatedDesc r xs with
        | nil => simp [descChain]
        | cons y ys =>
            apply List.Chain'.cons _ (hxs2 ▸ hins)
            have hhead := insertDesc_head r xs
            rw [hxs2] at hhead
            rcases hhead with hy | hy
            · have hyr : y = r := by simpa using hy
              rw [hyr]
              rcases sqliteLe_total x.created_time r.created_time with hh | hh
              · exact absurd hh hc
              · exact hh
            · cases xs with
              | nil => simp at hy
              | cons z zs =>
                  have hyz : y = z := by simpa using hy
                  rw [hyz]
                  exact (List.chain'_cons.mp h).1

/-- The emitted row order is non-increasing in `created_time`. -/
theorem sortRowsDesc_chain (rows : List RssRow) : descChain (sortRowsDesc rows) := by
  induction rows with
  | nil => simp [sortRowsDesc, descChain]
  | cons r rs ih => exact descChain_insert r _ ih

theorem str_append_assoc (a b c : String) : a ++ b ++ c = a ++ (b ++ c) := by
  apply String.ext
  simp [String.data_append, List.append_assoc]

theorem str_append_empty (s : String) : s ++ "" = s := by
  apply String.ext
  simp [String.data_append]

theorem rssItemsGo_eq (itemOf : RssRow → Option String) :
    ∀ (rows : List RssRow) (acc : String),
    rssItemsGo itemOf acc rows = (rssItemsSeq itemOf rows).map (acc ++ ·) := by
  intro rows
  induction rows with
  | nil => intro acc; simp [rssItemsGo, rssItemsSeq, str_append_empty]
  | cons r rs ih =>
      intro acc
      rw [rssItemsGo, rssItemsSeq]
      cases itemOf r with
      | none => rfl
      | some i =>
          dsimp only
          rw [ih (acc ++ i)]
          cases rssItemsSeq itemOf rs with
          | none => rfl
          | some s => simp [str_append_assoc]

namespace P

theorem generate_rss_go_cons (table : String) :
    ∀ (rs : List RssRow) (r : RssRow) (acc : String) (p : Option String),
    generate_rss_go table (r :: rs) acc p =
      (rss_item table r).bind fun i =>
        (rssItemsSeq (rss_item table) rs).map fun s => rss_wrap table (acc ++ i ++ s) := by
  intro rs
  induction rs with
  | nil =>
      intro r acc p
      rw [generate_rss_go]
      cases rss_item table r with
      | none => rfl
      | some i =>
          simp [generate_rss_go, rssItemsSeq, str_append_empty]
  | cons r2 rs2 ih =>
      intro r acc p
      rw [generate_rss_go]
      cases rss_item table r with
      | none => rfl
      | some i =>
          dsimp only
          rw [ih r2 (acc ++ i) _]
          rw [rssItemsSeq]
          cases rss_item table r2 with
          | none => rfl
          | some i2 =>
              cases rssItemsSeq (rss_item table) rs2 with
              | none => rfl
              | some s => simp [str_append_assoc]

end P

theorem lookupA_append {α β : Type} [DecidableEq α] (m1 m2 : List (α × β)) (k : α) :
    lookupA (m1 ++ m2) k =
      match lookupA m1 k with
      | some v => some v
      | none => lookupA m2 k := by
  induction m1 with
  | nil => simp [lookupA]
  | cons hd tl ih =>
      obtain ⟨k0, v0⟩ := hd
      by_cases hk : k = k0 <;> simp [lookupA, hk, ih]

theorem lookupA_mem {α β : Type} [DecidableEq α] (m : List (α × β)) (k : α) (v : β)
    (hl : lookupA m k = some v) : (k, v) ∈ m := by
  induction m with
  | nil => simp [lookupA] at hl
  | cons hd tl ih =>
      obtain ⟨k0, v0⟩ := hd
      by_cases hk : k = k0
      · subst hk
        simp [lookupA] at hl
        simp [hl]
      · simp [lookupA, hk] at hl
        simp [ih hl]

theorem lookupA_none_iff {α β : Type} [DecidableEq α] (m : List (α × β)) (k : α) :
    lookupA m k = none ↔ k ∉ keysOf m := by
  induction m with
  | nil => simp [lookupA, keysOf]
  | cons hd tl ih =>
      obtain ⟨k0, v0⟩ := hd
      by_cases hk : k = k0
      · subst hk; simp [lookupA, keysOf]
      · simp [lookupA, keysOf, hk, ih, Ne.symm hk]

theorem setA_mem {α β : Type} [DecidableEq α] (m : List (α × β)) (k : α) (v : β)
    (p : α × β) (hp : p ∈ setA m k v) : p ∈ m ∨ p = (k, v) := by
  induction m with
  | nil => simp [setA] at hp; simp [hp]
  | cons hd tl ih =>
      obtain ⟨k0, v0⟩ := hd
      by_cases hk : k = k0
      · subst hk
        simp [setA] at hp
        rcases hp with h | h
        · right; simp [h]
        · left; simp [h]
      · simp [setA, hk] at hp
        rcases hp with h | h
        · left; simp [h]
        · rcases ih h with h2 | h2
          · left; simp [h2]
          · right; exact h2

theorem keysOf_updateA {α β : Type} [DecidableEq α] (m : List (α × β)) (k : α) (f : β → β) :
    keysOf (updateA m k f) = keysOf m := by
  induction m with
  | nil => simp [updateA]
  | cons hd tl ih =>
      obtain ⟨k0, v0⟩ := hd
      by_cases hk : k = k0
      · simp [updateA, keysOf, hk]
      · simp [updateA, keysOf, hk]
        simpa [keysOf] using ih

theorem groupAdd_lookup_same (m : List (Val × List Val)) (k : Val) (t : Val) :
    lookupA (groupAdd m k t) k = some ((lookupA m k).getD [] ++ [t]) := by
  unfold groupAdd
  cases hm : lookupA m k with
  | some l =>
      rw [lookupA_updateA_same, hm]
      rfl
  | none =>
      rw [lookupA_append, hm]
      simp [lookupA]

theorem groupAdd_lookup_other (m : List (Val × List Val)) (k k' : Val) (t : Val)
    (h : k' ≠ k) : lookupA (groupAdd m k t) k' = lookupA m k' := by
  unfold groupAdd
  cases hm : lookupA m k with
  | some l => rw [lookupA_updateA_other _ _ _ _ h]
  | none =>
      rw [lookupA_append]
      cases hk' : lookupA m k' with
      | some v => rfl
      | none => simp [lookupA, h]

theorem groupAdd_keys (m : List (Val × List Val)) (k : Val) (t : Val) :
    keysOf (groupAdd m k t) = keysOf m ∨ keysOf (groupAdd m k t) = keysOf m ++ [k] := by
  unfold groupAdd
  cases hm : lookupA m k with
  | some l => left; exact keysOf_updateA m k _
  | none => right; simp [keysOf]

theorem groupPairsGo_nodup :
    ∀ (ps : List (Val × Val)) (acc : List (Val × List Val)),
    (keysOf acc).Nodup → (keysOf (groupPairsGo acc ps)).Nodup := by
  intro ps
  induction ps with
  | nil => intro acc h; exact h
  | cons p ps' ih =>
      obtain ⟨s, t⟩ := p
      intro acc h
      rw [groupPairsGo]
      apply ih
      unfold groupAdd
      cases hm : lookupA acc s with
      | some l => rw [keysOf_updateA]; exact h
      | none =>
          have hs : s ∉ keysOf acc := (lookupA_none_iff acc s).mp hm
          simp [keysOf, List.nodup_append]
          constructor
          · simpa [keysOf] using h
          · simpa [keysOf] using hs

theorem groupPairsGo_lookup :
    ∀ (ps : List (Val × Val)) (acc : List (Val × List Val)) (k : Val),
    lookupA (groupPairsGo acc ps) k =
      match lookupA acc k with
      | some a => some (a ++ targetsOf k ps)
      | none => if targetsOf k ps = [] then none else some (targetsOf k ps) := by
  intro ps
  induction ps with
  | nil =>
      intro acc k
      rw [groupPairsGo]
      cases lookupA acc k <;> simp [targetsOf]
  | cons p ps' ih =>
      obtain ⟨s, t⟩ := p
      intro acc k
      rw [groupPairsGo, ih]
      by_cases hs : s = k
      · subst hs
        rw [groupAdd_lookup_same]
        have ht : targetsOf s ((s, t) :: ps') = t :: targetsOf s ps' := by
          simp [targetsOf]
        rw [ht]
        cases lookupA acc s <;> simp [List.append_assoc]
      · rw [groupAdd_lookup_other _ _ _ _ (fun hh => hs hh.symm)]
        have ht : targetsOf k ((s, t) :: ps') = targetsOf k ps' := by
          simp [targetsOf, hs]
        rw [ht]

theorem groupPairs_lookup (ps : List (Val × Val)) (k : Val) :
    lookupA (groupPairs ps) k =
      if targetsOf k ps = [] then none else some (targetsOf k ps) := by
  unfold groupPairs
  rw [groupPairsGo_lookup]
  rfl

theorem groupPairs_nodup (ps : List (Val × Val)) : (keysOf (groupPairs ps)).Nodup := by
  unfold groupPairs
  exact groupPairsGo_nodup ps [] (by simp [keysOf])

theorem str_empty_append (s : String) : "" ++ s = s := by
  apply String.ext
  simp [String.data_append]

theorem str_foldl_append_init (l : List String) :
    ∀ (x y : String), l.foldl (· ++ ·) (x ++ y) = x ++ l.foldl (· ++ ·) y := by
  induction l with
  | nil => intro x y; rfl
  | cons z zs ih =>
      intro x y
      simp only [List.foldl_cons]
      rw [str_append_assoc, ih]

theorem str_join_cons (a : String) (l : List String) :
    String.join (a :: l) = a ++ String.join l := by
  show l.foldl (· ++ ·) ("" ++ a) = a ++ l.foldl (· ++ ·) ""
  rw [str_empty_append]
  rw [show (a : String) = a ++ "" from (str_append_empty a).symm]
  rw [str_foldl_append_init]
  rw [str_append_empty]

theorem addCtx_ctx (links : String) (e : Entry) :
    ctxOf (addCtx links e) = ctxOf e ++ links := by
  unfold addCtx ctxOf
  rw [lookupA_setA_same]

theorem addCtx_other (links : String) (e : Entry) (k : String) (hk : k ≠ "context") :
    lookupA (addCtx links e) k = lookupA e k := by
  unfold addCtx
  exact lookupA_setA_other _ _ _ _ hk

theorem groupFold_none (link : String → Val → String) (b : String) :
    ∀ (gs : List (Val × List Val)) (tvs : List (Val × Entry)) (s : Val),
    lookupA tvs s = none →
    lookupA (gs.foldl
      (fun acc g =>
        if (lookupA acc g.1).isSome then
          updateA acc g.1 (addCtx (linksHtml link b g.2))
        else acc) tvs) s = none := by
  intro gs
  induction gs with
  | nil => intro tvs s h; exact h
  | cons g gs' ih =>
      intro tvs s h
      simp only [List.foldl_cons]
      apply ih
      by_cases hg : (lookupA tvs g.1).isSome
      · rw [if_pos hg]
        by_cases hgs : s = g.1
        · subst hgs
          rw [h] at hg
          simp at hg
        · rw [lookupA_updateA_other _ _ _ _ hgs]
          exact h
      · rw [if_neg hg]
        exact h

theorem groupFold_lookup (link : String → Val → String) (b : String) :
    ∀ (gs : List (Val × List Val)) (tvs : List (Val × Entry)) (s : Val) (e : Entry),
    (keysOf gs).Nodup → lookupA tvs s = some e →
    ∃ e', lookupA (gs.foldl
      (fun acc g =>
        if (lookupA acc g.1).isSome then
          updateA acc g.1 (addCtx (linksHtml link b g.2))
        else acc) tvs) s = some e' ∧
      ctxOf e' = ctxOf e ++
        (match lookupA gs s with
          | some ts => linksHtml link b ts
          | none => "") ∧
      (∀ k, k ≠ "context" → lookupA e' k = lookupA e k) := by
  intro gs
  induction gs with
  | nil =>
      intro tvs s e _ h
      exact ⟨e, h, by simp [lookupA, str_append_empty], fun _ _ => rfl⟩
  | cons g gs' ih =>
      obtain ⟨k0, ts⟩ := g
      intro tvs s e hnd h
      simp only [List.foldl_cons]
      have hnd' : (keysOf gs').Nodup := by
        simpa [keysOf] using hnd.of_cons
      by_cases hks : k0 = s
      · subst hks
        have hsome : (lookupA tvs k0).isSome := by rw [h]; rfl
        rw [if_pos hsome]
        have hup : lookupA (updateA tvs k0 (addCtx (linksHtml link b ts))) k0
            = some (addCtx (linksHtml link b ts) e) := by
          rw [lookupA_updateA_same, h]; rfl
        obtain ⟨e', he', hctx, hother⟩ := ih _ k0 _ hnd' hup
        refine ⟨e', he', ?_, ?_⟩
        · have hnot : lookupA gs' k0 = none := by
            rw [lookupA_none_iff]
            have h2 : (k0 :: keysOf gs').Nodup := by simpa [keysOf] using hnd
            exact (List.nodup_cons.mp h2).1
          have h1 : (match lookupA gs' k0 with
              | some ts2 => linksHtml link b ts2
              | none => "") = "" := by rw [hnot]
          have h2 : (match lookupA ((k0, ts) :: gs') k0 with
              | some ts2 => linksHtml link b ts2
              | none => "") = linksHtml link b ts := by simp [lookupA]
          rw [hctx, h1, addCtx_ctx, str_append_empty, h2]
        · intro k hk
          rw [hother k hk, addCtx_other _ _ _ hk]
      · have hstep : lookupA
            (if (lookupA tvs k0).isSome then
              updateA tvs k0 (addCtx (linksHtml link b ts))
            else tvs) s = some e := by
          by_cases hg : (lookupA tvs k0).isSome
          · rw [if_pos hg, lookupA_updateA_other _ _ _ _ (Ne.symm hks)]
            exact h
          · rw [if_neg hg]; exact h
        obtain ⟨e', he', hctx, hother⟩ := ih _ s _ hnd' hstep
        refine ⟨e', he', ?_, hother⟩
        rw [hctx]
        have hcons : lookupA ((k0, ts) :: gs') s = lookupA gs' s := by
          simp [lookupA, Ne.symm hks]
        rw [hcons]

theorem linksHtml_nil (link : String → Val → String) (b : String) :
    linksHtml link b [] = "" := rfl

theorem applyDecl_lookup (link : String → Val → String) (d : RelDecl)
    (tvs : List (Val × Entry)) (s : Val) (e : Entry) (h : lookupA tvs s = some e) :
    ∃ e', lookupA (applyDecl link tvs d) s = some e' ∧
      ctxOf e' = ctxOf e ++ linksHtml link d.other (targetsOf s d.joinResult) ∧
      (∀ k, k ≠ "context" → lookupA e' k = lookupA e k) := by
  unfold applyDecl
  obtain ⟨e', he', hctx, hother⟩ :=
    groupFold_lookup link d.other (groupPairs d.joinResult) tvs s e
      (groupPairs_nodup d.joinResult) h
  refine ⟨e', he', ?_, hother⟩
  rw [hctx, groupPairs_lookup]
  by_cases ht : targetsOf s d.joinResult = []
  · rw [if_pos ht, ht, linksHtml_nil]
  · rw [if_neg ht]

theorem applyDecl_none (link : String → Val → String) (d : RelDecl)
    (tvs : List (Val × Entry)) (s : Val) (h : lookupA tvs s = none) :
    lookupA (applyDecl link tvs d) s = none := by
  unfold applyDecl
  exact groupFold_none link d.other _ tvs s h

theorem resolveRels_lookup (link : String → Val → String) :
    ∀ (decls : List RelDecl) (tvs : List (Val × Entry)) (s : Val) (e : Entry),
    lookupA tvs s = some e →
    ∃ e', lookupA (resolveRels link decls tvs) s = some e' ∧
      ctxOf e' = ctxOf e ++
        String.join (decls.map fun d => linksHtml link d.other (targetsOf s d.joinResult)) ∧
      (∀ k, k ≠ "context" → lookupA e' k = lookupA e k) := by
  intro decls
  induction decls with
  | nil =>
      intro tvs s e h
      exact ⟨e, h, by simp [String.join, str_append_empty], fun _ _ => rfl⟩
  | cons d ds ih =>
      intro tvs s e h
      obtain ⟨e1, he1, hctx1, hother1⟩ := applyDecl_lookup link d tvs s e h
      obtain ⟨e', he', hctx, hother⟩ := ih (applyDecl link tvs d) s e1 he1
      refine ⟨e', ?_, ?_, ?_⟩
      · simpa [resolveRels] using he'
      · rw [hctx, hctx1, List.map_cons, str_join_cons, str_append_assoc]
      · intro k hk
        rw [hother k hk, hother1 k hk]

theorem resolveRels_none (link : String → Val → String) :
    ∀ (decls : List RelDecl) (tvs : List (Val × Entry)) (s : Val),
    lookupA tvs s = none → lookupA (resolveRels link decls tvs) s = none := by
  intro decls
  induction decls with
  | nil => intro tvs s h; exact h
  | cons d ds ih =>
      intro tvs s h
      simpa [resolveRels] using ih (applyDecl link tvs d) s (applyDecl_none link d tvs s h)

theorem initEntry_ctx (r : Row) : ctxOf (initEntry r) = "" := by
  unfold initEntry ctxOf
  rw [lookupA_setA_same]

theorem initTvsGo_ctx :
    ∀ (rows : List Row) (acc tvs : List (Val × Entry)),
    initTvsGo acc rows = some tvs → (∀ p ∈ acc, ctxOf p.2 = "") →
    ∀ p ∈ tvs, ctxOf p.2 = "" := by
  intro rows
  induction rows with
  | nil =>
      intro acc tvs h hin
      simp [initTvsGo] at h
      exact h ▸ hin
  | cons r rs ih =>
      intro acc tvs h hin
      rw [initTvsGo] at h
      cases hs : lookupA r "slug" with
      | none => rw [hs] at h; exact absurd h (by simp)
      | some sv =>
          rw [hs] at h
          refine ih _ _ h ?_
          intro p hp
          rcases setA_mem _ _ _ _ hp with hpa | hpe
          · exact hin p hpa
          · rw [hpe]
            exact initEntry_ctx r

theorem mapEntriesM_lookup (f : Entry → Option Entry) :
    ∀ (l l' : List (Val × Entry)), mapEntriesM f l = some l' →
    ∀ (s : Val) (e : Entry), lookupA l s = some e →
    ∃ e2, f e = some e2 ∧ lookupA l' s = some e2 := by
  intro l
  induction l with
  | nil =>
      intro l' _ s e he
      simp [lookupA] at he
  | cons p rest ih =>
      obtain ⟨k, e0⟩ := p
      intro l' hm s e he
      rw [mapEntriesM] at hm
      cases hf : f e0 with
      | none => rw [hf] at hm; exact absurd hm (by simp)
      | some e02 =>
          rw [hf] at hm
          cases hrest : mapEntriesM f rest with
          | none => rw [hrest] at hm; exact absurd hm (by simp)
          | some rest' =>
              rw [hrest] at hm
              simp at hm
              by_cases hks : s = k
              · subst hks
                simp [lookupA] at he
                subst he
                refine ⟨e02, hf, ?_⟩
                rw [← hm]
                simp [lookupA]
              · simp [lookupA, hks] at he
                obtain ⟨e2, hfe2, hl⟩ := ih rest' hrest s e he
                refine ⟨e2, hfe2, ?_⟩
                rw [← hm]
                simp [lookupA, hks]
                exact hl

theorem mapEntriesM_none (f : Entry → Option Entry) :
    ∀ (l l' : List (Val × Entry)), mapEntriesM f l = some l' →
    ∀ (s : Val), lookupA l s = none → lookupA l' s = none := by
  intro l
  induction l with
  | nil =>
      intro l' hm s _
      simp [mapEntriesM] at hm
      subst hm
      rfl
  | cons p rest ih =>
      obtain ⟨k, e0⟩ := p
      intro l' hm s he
      rw [mapEntriesM] at hm
      cases hf : f e0 with
      | none => rw [hf] at hm; exact absurd hm (by simp)
      | some e02 =>
          rw [hf] at hm
          cases hrest : mapEntriesM f rest with
          | none => rw [hrest] at hm; exact absurd hm (by simp)
          | some rest' =>
              rw [hrest] at hm
              simp at hm
              by_cases hks : s = k
              · subst hks; simp [lookupA] at he
              · simp [lookupA, hks] at he
                rw [← hm]
                simp [lookupA, hks]
                exact ih rest' hrest s he

theorem mapEntriesM_mem (f : Entry → Option Entry) :
    ∀ (l l' : List (Val × Entry)), mapEntriesM f l = some l' →
    ∀ p' ∈ l', ∃ p ∈ l, p'.1 = p.1 ∧ f p.2 = some p'.2 := by
  intro l
  induction l with
  | nil =>
      intro l' hm p' hp'
      simp [mapEntriesM] at hm
      subst hm
      simp at hp'
  | cons p rest ih =>
      obtain ⟨k, e0⟩ := p
      intro l' hm p' hp'
      rw [mapEntriesM] at hm
      cases hf : f e0 with
      | none => rw [hf] at hm; exact absurd hm (by simp)
      | some e02 =>
          rw [hf] at hm
          cases hrest : mapEntriesM f rest with
          | none => rw [hrest] at hm; exact absurd hm (by simp)
          | some rest' =>
              rw [hrest] at hm
              simp at hm
              rw [← hm] at hp'
              rcases List.mem_cons.mp hp' with h1 | h1
              · exact ⟨(k, e0), by simp, by rw [h1], by rw [h1]; exact hf⟩
              · obtain ⟨p0, hp0, hfst, hsnd⟩ := ih rest' hrest p' h1
                exact ⟨p0, by simp [hp0], hfst, hsnd⟩

theorem P_dateage_entry_other (e e2 : Entry) (h : P.dateage_entry e = some e2) :
    ∀ k, k ≠ "html" → lookupA e2 k = lookupA e k := by
  unfold P.dateage_entry at h
  cases hh : getOpt e "html" with
  | none => rw [hh] at h; simp at h; rw [← h]; intro _ _; rfl
  | some hv =>
      rw [hh] at h
      cases hc : getOpt e "created_time" with
      | none => rw [hc] at h; simp at h; rw [← h]; intro _ _; rfl
      | some cv =>
          rw [hc] at h
          cases hv with
          | text hs =>
              simp at h
              rw [← h]
              intro k hk
              exact lookupA_setA_other _ _ _ _ hk
          | null => simp at h
          | int n => simp at h

theorem M_dateage_entry_other (cmp : String) (e e2 : Entry)
    (h : M.dateage_entry cmp e = some e2) :
    ∀ k, k ≠ "html" → lookupA e2 k = lookupA e k := by
  unfold M.dateage_entry at h
  cases hh : getOpt e "html" with
  | none => rw [hh] at h; simp at h; rw [← h]; intro _ _; rfl
  | some hv =>
      rw [hh] at h
      cases hc : getOpt e "created_time" with
      | none => rw [hc] at h; simp at h; rw [← h]; intro _ _; rfl
      | some cv =>
          rw [hc] at h
          cases hv with
          | text hs =>
              dsimp only at h
              cases hfr : pyFormat
                  (fun n =>
                    if n = "created_time" then some (valStr cv)
                    else if n = "AUTHOR_BIRTHDAY" then some AUTHOR_BIRTHDAY
                    else none) cmp with
              | none => rw [hfr] at h; simp at h
              | some frag =>
                  rw [hfr] at h
                  dsimp only at h
                  cases hfm : pyFormat (fun n => if n = "dateage" then some frag else none) hs with
                  | none => rw [hfm] at h; simp at h
                  | some hs2 =>
                      rw [hfm] at h
                      simp at h
                      rw [← h]
                      intro k hk
                      exact lookupA_setA_other _ _ _ _ hk
          | null => simp at h
          | int n => simp at h

theorem pipeline_ctx (dstep : Entry → Option Entry)
    (hstep : ∀ e e2, dstep e = some e2 → ∀ k, k ≠ "html" → lookupA e2 k = lookupA e k)
    (link : String → Val → String) (rows : List Row) (decls : List RelDecl)
    (tvs0 tvs1 : List (Val × Entry)) (s : Val) (e : Entry)
    (h0 : initTvs rows = some tvs0)
    (h1 : mapEntriesM dstep tvs0 = some tvs1)
    (hl : lookupA (resolveRels link decls tvs1) s = some e) :
    ctxOf e = String.join (decls.map fun d => linksHtml link d.other (targetsOf s d.joinResult)) := by
  cases he1 : lookupA tvs1 s with
  | none =>
      rw [resolveRels_none link decls tvs1 s he1] at hl
      exact absurd hl (by simp)
  | some e1 =>
      obtain ⟨e', he', hctx, _⟩ := resolveRels_lookup link decls tvs1 s e1 he1
      have hee : e' = e := by
        rw [he'] at hl
        exact Option.some.inj hl
      have hmem := lookupA_mem tvs1 s e1 he1
      obtain ⟨p0, hp0, _, hsnd⟩ := mapEntriesM_mem dstep tvs0 tvs1 h1 (s, e1) hmem
      have hctx0 : ctxOf p0.2 = "" := initTvsGo_ctx rows [] tvs0 h0 (by simp) p0 hp0
      have hctx1 : ctxOf e1 = "" := by
        have hpres : ctxOf e1 = ctxOf p0.2 := by
          unfold ctxOf
          rw [hstep p0.2 e1 hsnd "context" (by decide)]
        rw [hpres, hctx0]
      rw [← hee, hctx, hctx1, str_empty_append]

/-- C5: for every table with declared relationships, the resolved context of
each source row contains exactly the links implied by the junction-table
joins: for both `gen_tmpl_values` variants, the `context` of the entry
returned for slug `s` is exactly the concatenation, over the declarations
in declaration order, of the rendered links of the join-result pairs whose
source slug is `s`, in join-result order (`targetsOf` keeps that order) —
so the resolver introduces no duplicates beyond those in the join result,
each declaration's links are appended after the row's existing (initially
empty) context, and a row with no related rows keeps an empty context. -/
theorem resolver_context_exact (rows : List Row) (decls : List RelDecl) (s : Val) :
    (∀ tvs e, P.gen_tmpl_values rows decls = some tvs → lookupA tvs s = some e →
      ctxOf e = String.join (decls.map fun d =>
        linksHtml P.rel_link d.other (targetsOf s d.joinResult))) ∧
    (∀ cmp tvs e, M.gen_tmpl_values cmp rows decls = some tvs → lookupA tvs s = some e →
      ctxOf e = String.join (decls.map fun d =>
        linksHtml M.rel_link d.other (targetsOf s d.joinResult))) := by
  constructor
  · intro tvs e hgen hl
    unfold P.gen_tmpl_values at hgen
    cases h0 : initTvs rows with
    | none => rw [h0] at hgen; exact absurd hgen (by simp)
    | some tvs0 =>
        rw [h0] at hgen
        dsimp only at hgen
        cases h1 : mapEntriesM P.dateage_entry tvs0 with
        | none => rw [h1] at hgen; exact absurd hgen (by simp)
        | some tvs1 =>
            rw [h1] at hgen
            dsimp only at hgen
            have htvs : resolveRels P.rel_link decls tvs1 = tvs := Option.some.inj hgen
            rw [← htvs] at hl
            exact pipeline_ctx P.dateage_entry P_dateage_entry_other P.rel_link
              rows decls tvs0 tvs1 s e h0 h1 hl
  · intro cmp tvs e hgen hl
    unfold M.gen_tmpl_values at hgen
    cases h0 : initTvs rows with
    | none => rw [h0] at hgen; exact absurd hgen (by simp)
    | some tvs0 =>
        rw [h0] at hgen
        dsimp only at hgen
        cases h1 : mapEntriesM (M.dateage_entry cmp) tvs0 with
        | none => rw [h1] at hgen; exact absurd hgen (by simp)
        | some tvs1 =>
            rw [h1] at hgen
            dsimp only at hgen
            have htvs : resolveRels M.rel_link decls tvs1 = tvs := Option.some.inj hgen
            rw [← htvs] at hl
            exact pipeline_ctx (M.dateage_entry cmp) (M_dateage_entry_other cmp) M.rel_link
              rows decls tvs0 tvs1 s e h0 h1 hl

theorem resolver_context_exact_witness :
    ctxOf ((lookupA ((P.gen_tmpl_values c5wRows c5wDecls).getD []) (Val.text "a")).getD []) =
      String.join (c5wDecls.map fun d =>
        linksHtml P.rel_link d.other (targetsOf (Val.text "a") d.joinResult)) :=
  (resolver_context_exact c5wRows c5wDecls (Val.text "a")).1
    ((P.gen_tmpl_values c5wRows c5wDecls).getD [])
    ((lookupA ((P.gen_tmpl_values c5wRows c5wDecls).getD []) (Val.text "a")).getD [])
    (by decide) (by decide)

/-- C9: in watch mode, a missing (table, slug) row at startup means: one
diagnostic line on stderr, exit status 1, no output file written, and the
watch loop never entered — for the identical startup code of both
`watch_buffer` implementations. -/
theorem watch_missing_slug_exits (table slug : String) (fetched : Option Row)
    (h : fetched = none) :
    (watch_buffer_startup table slug fetched).exitCode = some 1 ∧
    (watch_buffer_startup table slug fetched).errLines =
      ["Slug \x27" ++ slug ++ "\x27 not found in table \x27" ++ table ++ "\x27"] ∧
    (watch_buffer_startup table slug fetched).writes = [] ∧
    (watch_buffer_startup table slug fetched).enteredLoop = false := by
  subst h
  exact ⟨rfl, rfl, rfl, rfl⟩

theorem watch_missing_slug_exits_witness :
    (watch_buffer_startup "notes" "hello" none).exitCode = some 1 ∧
    (watch_buffer_startup "notes" "hello" none).errLines =
      ["Slug \x27" ++ "hello" ++ "\x27 not found in table \x27" ++ "notes" ++ "\x27"] ∧
    (watch_buffer_startup "notes" "hello" none).writes = [] ∧
    (watch_buffer_startup "notes" "hello" none).enteredLoop = false :=
  watch_missing_slug_exits "notes" "hello" none rfl

theorem rssItems_eq_seq (itemOf : RssRow → Option String) (rows : List RssRow) :
    rssItems itemOf rows = rssItemsSeq itemOf rows := by
  unfold rssItems
  rw [rssItemsGo_eq]
  cases rssItemsSeq itemOf rows with
  | none => rfl
  | some s => simp [str_empty_append]

/-- C6: the emitted `<item>` sequence is ordered by creation timestamp
non-increasing: the rows `generate_rss` iterates are the query result
ordered newest-first (`sortRowsDesc`), which is a non-increasing chain
under SQLite's value ordering, and both variants emit one item per row in
exactly that list order (the `items_xml` accumulation is the in-order
concatenation). -/
theorem rss_items_sorted_desc (table : String) (prows : List RssRow) :
    descChain (sortRowsDesc prows) ∧
    rssItems (M.rss_item table) (sortRowsDesc prows) =
      rssItemsSeq (M.rss_item table) (sortRowsDesc prows) ∧
    rssItems (P.rss_item table) (sortRowsDesc prows) =
      rssItemsSeq (P.rss_item table) (sortRowsDesc prows) :=
  ⟨sortRowsDesc_chain prows, rssItems_eq_seq _ _, rssItems_eq_seq _ _⟩

theorem rssLink_data (table : String) (s : Val) :
    (rssLink table s).data =
      (BASE_URL ++ "/" ++ table).data ++ '/' :: (valStr s).data := by
  unfold rssLink
  simp [String.data_append]

theorem rssLink_no_html_suffix (table : String) (s : Val)
    (h : ¬ (".html".data <:+ (valStr s).data)) :
    ¬ (".html".data <:+ (rssLink table s).data) := by
  intro hsuf
  rw [rssLink_data] at hsuf
  set pre := (BASE_URL ++ "/" ++ table).data with hpre
  set sdata := (valStr s).data with hsdata
  obtain ⟨u, hu⟩ := hsuf
  have hlen : u.length + 5 = pre.length + 1 + sdata.length := by
    have hlc := congrArg List.length hu
    simp [List.length_append] at hlc
    omega
  by_cases hsl : 5 ≤ sdata.length
  · apply h
    have hdrop : ".html".data = (pre ++ '/' :: sdata).drop u.length := by
      rw [← hu, List.drop_left]
    have hrewrite : (pre ++ '/' :: sdata).drop u.length
        = sdata.drop (u.length - (pre.length + 1)) := by
      rw [show pre ++ '/' :: sdata = (pre ++ ['/']) ++ sdata by simp]
      rw [List.drop_append_eq_append_drop]
      have h1 : (pre ++ ['/']).drop u.length = [] := by
        apply List.drop_eq_nil_of_le
        simp
        omega
      rw [h1, List.nil_append]
      congr 1
      simp
    rw [hdrop, hrewrite]
    exact List.drop_suffix _ _
  · have hul : u.length ≤ pre.length := by omega
    have hdot : ".html".data = ['.', 'h', 't', 'm', 'l'] := rfl
    rw [hdot] at hu
    have hbound1 : pre.length < (u ++ ['.', 'h', 't', 'm', 'l']).length := by
      simp [List.length_append]
      omega
    have hget1 : (u ++ ['.', 'h', 't', 'm', 'l'])[pre.length] = '/' := by
      rw [List.getElem_of_eq hu hbound1]
      rw [List.getElem_append_right (Nat.le_refl pre.length)]
      simp
    have h4 := @List.getElem_append_right Char u ['.', 'h', 't', 'm', 'l'] pre.length hul hbound1
    have hall : ∀ (i : Nat) (hi : i < 5), (['.', 'h', 't', 'm', 'l'] : List Char)[i] ≠ '/' := by
      decide
    exact hall (pre.length - u.length) (by omega) (h4.symm.trans hget1)

/-- C7: each feed item's `<guid>` and `<link>` both equal the fixed base
URL + `/` + table + `/` + slug — with no `.html` suffix appended (and none
present as long as the slug itself carries none) — and its `<pubDate>` is
the RFC 822 rendering of the row's creation date in which the time-of-day
part of the stored timestamp is ignored (only the text before the first
space is parsed) and the timezone is the fixed UTC `+0000` at midnight. -/
theorem rss_link_guid_pubdate (table : String) (r : RssRow) (dt : String)
    (hp : pubDateOf r.created_time = some dt)
    (hns : ¬ (".html".data <:+ (valStr r.slug).data)) :
    rssLink table r.slug = BASE_URL ++ "/" ++ table ++ "/" ++ valStr r.slug ∧
    ¬ (".html".data <:+ (rssLink table r.slug).data) ∧
    M.rss_item table r = some ("\n    <item>\n      <title>" ++ xml_escape (valStr r.title) ++
      "</title>\n      <guid>" ++ rssLink table r.slug ++ "</guid>\n      <link>" ++
      rssLink table r.slug ++ "</link>\n      <pubDate>" ++ dt ++
      "</pubDate>\n      <description>\n        <![CDATA[ " ++ valStr r.html ++
      " ]]>\n      </description>\n    </item>") ∧
    P.rss_item table r = some ("<item>\n          <title>" ++ xml_escape (valStr r.title) ++
      "</title>\n          <guid>" ++ rssLink table r.slug ++
      "</guid>\n          <link>" ++ rssLink table r.slug ++
      "</link>\n          <pubDate>" ++ dt ++
      "</pubDate>\n          <description>\n            <![CDATA[ " ++ valStr r.html ++
      " ]]>\n          </description>\n        </item>") ∧
    (∀ datepart timepart : String, (' ' : Char) ∉ datepart.data →
      pubDateOf (Val.text (datepart ++ " " ++ timepart)) = pubDateOf (Val.text datepart)) ∧
    (∀ d : Date, ∃ datestr : String, fmtRFC822 d = datestr ++ " 00:00:00 +0000") := by
  refine ⟨rfl, rssLink_no_html_suffix table r.slug hns, ?_, ?_,
    fun dp tp hh => pubDateOf_ignores_time dp tp hh,
    fun d => ⟨_, rfl⟩⟩
  · unfold M.rss_item
    rw [hp]
    rfl
  · unfold P.rss_item
    rw [hp]
    rfl

theorem rss_link_guid_pubdate_witness :
    rssLink "weblog" c7wRow.slug = BASE_URL ++ "/" ++ "weblog" ++ "/" ++ valStr c7wRow.slug ∧
    ¬ (".html".data <:+ (rssLink "weblog" c7wRow.slug).data) ∧
    M.rss_item "weblog" c7wRow = some ("\n    <item>\n      <title>" ++ xml_escape (valStr c7wRow.title) ++
      "</title>\n      <guid>" ++ rssLink "weblog" c7wRow.slug ++ "</guid>\n      <link>" ++
      rssLink "weblog" c7wRow.slug ++ "</link>\n      <pubDate>" ++ c7wDt ++
      "</pubDate>\n      <description>\n        <![CDATA[ " ++ valStr c7wRow.html ++
      " ]]>\n      </description>\n    </item>") ∧
    P.rss_item "weblog" c7wRow = some ("<item>\n          <title>" ++ xml_escape (valStr c7wRow.title) ++
      "</title>\n          <guid>" ++ rssLink "weblog" c7wRow.slug ++
      "</guid>\n          <link>" ++ rssLink "weblog" c7wRow.slug ++
      "</link>\n          <pubDate>" ++ c7wDt ++
      "</pubDate>\n          <description>\n            <![CDATA[ " ++ valStr c7wRow.html ++
      " ]]>\n          </description>\n        </item>") ∧
    (∀ datepart timepart : String, (' ' : Char) ∉ datepart.data →
      pubDateOf (Val.text (datepart ++ " " ++ timepart)) = pubDateOf (Val.text datepart)) ∧
    (∀ d : Date, ∃ datestr : String, fmtRFC822 d = datestr ++ " 00:00:00 +0000") :=
  rss_link_guid_pubdate "weblog" c7wRow c7wDt (by decide) (by decide)

/-- C8: the item `<title>` is the row's title with exactly the
replacements `&`→`&amp;`, `<`→`&lt;`, `>`→`&gt;` applied — the three
sequential replaces are one left-to-right pass (`escAll`) that leaves
every character other than `&`, `<`, `>` unchanged — and the body is
embedded verbatim inside the `<![CDATA[ ... ]]>` block; the escaped title
is well-formed XML text: no raw `<` or `>` and every `&` opening one of
the entities `&amp;`/`&lt;`/`&gt;` (`wellEscaped`). -/
theorem rss_title_escaping_cdata (table : String) (r : RssRow) (dt : String)
    (hp : pubDateOf r.created_time = some dt) :
    (∀ s : String, xml_escape s = String.mk (escAll s.data)) ∧
    (∀ c : Char, c ≠ '&' → c ≠ '<' → c ≠ '>' → escChar c = [c]) ∧
    (∀ s : String, wellEscaped (xml_escape s).data = true) ∧
    M.rss_item table r = some ("\n    <item>\n      <title>" ++ xml_escape (valStr r.title) ++
      "</title>\n      <guid>" ++ rssLink table r.slug ++ "</guid>\n      <link>" ++
      rssLink table r.slug ++ "</link>\n      <pubDate>" ++ dt ++
      "</pubDate>\n      <description>\n        <![CDATA[ " ++ valStr r.html ++
      " ]]>\n      </description>\n    </item>") ∧
    P.rss_item table r = some ("<item>\n          <title>" ++ xml_escape (valStr r.title) ++
      "</title>\n          <guid>" ++ rssLink table r.slug ++
      "</guid>\n          <link>" ++ rssLink table r.slug ++
      "</link>\n          <pubDate>" ++ dt ++
      "</pubDate>\n          <description>\n            <![CDATA[ " ++ valStr r.html ++
      " ]]>\n          </description>\n        </item>") := by
  refine ⟨xml_escape_single_pass, escChar_other, ?_, ?_, ?_⟩
  · intro s
    rw [xml_escape_single_pass]
    exact wellEscaped_escAll s.data
  · unfold M.rss_item
    rw [hp]
    rfl
  · unfold P.rss_item
    rw [hp]
    rfl

theorem rss_title_escaping_cdata_witness :
    (∀ s : String, xml_escape s = String.mk (escAll s.data)) ∧
    (∀ c : Char, c ≠ '&' → c ≠ '<' → c ≠ '>' → escChar c = [c]) ∧
    (∀ s : String, wellEscaped (xml_escape s).data = true) ∧
    M.rss_item "weblog" c8wRow = some ("\n    <item>\n      <title>" ++ xml_escape (valStr c8wRow.title) ++
      "</title>\n      <guid>" ++ rssLink "weblog" c8wRow.slug ++ "</guid>\n      <link>" ++
      rssLink "weblog" c8wRow.slug ++ "</link>\n      <pubDate>" ++ c8wDt ++
      "</pubDate>\n      <description>\n        <![CDATA[ " ++ valStr c8wRow.html ++
      " ]]>\n      </description>\n    </item>") ∧
    P.rss_item "weblog" c8wRow = some ("<item>\n          <title>" ++ xml_escape (valStr c8wRow.title) ++
      "</title>\n          <guid>" ++ rssLink "weblog" c8wRow.slug ++
      "</guid>\n          <link>" ++ rssLink "weblog" c8wRow.slug ++
      "</link>\n          <pubDate>" ++ c8wDt ++
      "</pubDate>\n          <description>\n            <![CDATA[ " ++ valStr c8wRow.html ++
      " ]]>\n          </description>\n        </item>") :=
  rss_title_escaping_cdata "weblog" c8wRow c8wDt (by decide)

/-- C3: `generate_rss` selects the title-bearing column per table —
`main.py` computes `'name' if table == 'authors' else 'title'`; `prev.py`
hardcodes `'title'` but its `generate_rss` is only invoked for the tables
in `RSS_TABLES`, none of which is the authors table, so the same selection
rule holds at every call site — the SELECT projection takes the item's
title value from exactly that column, and the emitted `<item>`'s
`<title>` carries that value (XML-escaped). -/
theorem rss_title_column_selection :
    (∀ table : String, M.title_col table = if table = "authors" then "name" else "title") ∧
    (∀ table ∈ P.RSS_TABLES, "title" = if table = "authors" then "name" else "title") ∧
    (∀ (tc : String) (row : Row) (pr : RssRow), rssProject tc row = some pr →
      lookupA row tc = some pr.title) ∧
    (∀ (table : String) (pr : RssRow) (dt : String),
      pubDateOf pr.created_time = some dt →
      M.rss_item table pr = some ("\n    <item>\n      <title>" ++
        xml_escape (valStr pr.title) ++
        "</title>\n      <guid>" ++ rssLink table pr.slug ++ "</guid>\n      <link>" ++
        rssLink table pr.slug ++ "</link>\n      <pubDate>" ++ dt ++
        "</pubDate>\n      <description>\n        <![CDATA[ " ++ valStr pr.html ++
        " ]]>\n      </description>\n    </item>")) := by
  refine ⟨fun _ => rfl, ?_, ?_, ?_⟩
  · intro table ht
    simp [P.RSS_TABLES] at ht
    rcases ht with rfl | rfl <;> rfl
  · intro tc row pr hpro
    unfold rssProject at hpro
    cases h1 : lookupA row "slug" <;> rw [h1] at hpro
    · simp at hpro
    cases h2 : lookupA row tc <;> rw [h2] at hpro
    · simp at hpro
    cases h3 : lookupA row "created_time" <;> rw [h3] at hpro
    · simp at hpro
    cases h4 : lookupA row "html" <;> rw [h4] at hpro
    · simp at hpro
    · dsimp only at hpro
      cases Option.some.inj hpro
      simp [h2]
  · intro table pr dt hp
    unfold M.rss_item
    rw [hp]
    rfl

theorem rss_title_column_selection_witness :
    M.title_col "authors" = "name" ∧ M.title_col "weblog" = "title" ∧
    lookupA c3wRow (M.title_col "authors") =
      some (((rssProject (M.title_col "authors") c3wRow).getD ⟨Val.null, Val.null, Val.null, Val.null⟩).title) := by
  refine ⟨?_, ?_, ?_⟩
  · have h := (rss_title_column_selection).1 "authors"
    simpa using h
  · have h := (rss_title_column_selection).1 "weblog"
    simpa using h
  · exact (rss_title_column_selection).2.2.1 (M.title_col "authors") c3wRow
      ((rssProject (M.title_col "authors") c3wRow).getD ⟨Val.null, Val.null, Val.null, Val.null⟩)
      (by decide)

/-- C2 counterexample: the two `generate_rss` variants do NOT produce
identical feed documents: on the same single-row table their outputs
differ (the item and channel templates carry different indentation), and
on an empty table the in-loop variant never assigns `rss_content` and
dies with a `NameError` (`none`) instead of writing the empty feed the
build-once variant produces. -/
theorem rss_variants_differ :
    P.generate_rss_content "weblog" [c2wRow] ≠ M.generate_rss_content "weblog" [c2wRow] ∧
    P.generate_rss_content "weblog" [] = none ∧
    M.generate_rss_content "weblog" [] = some (M.rss_wrap "weblog" "") := by
  refine ⟨by decide, rfl, rfl⟩

/-- C2 (amended): within `prev.py`'s `generate_rss`, for every nonempty
row sequence, rebuilding and overwriting the whole feed document inside
the per-row loop yields exactly the document built once after collecting
all items (with `prev.py`'s own item/channel text); for the empty
sequence the loop variant aborts on the unbound `rss_content` instead.
The two files' variants are not byte-identical (see the
counterexample). -/
theorem prev_rss_loop_equals_build_once (table : String) (prows : List RssRow)
    (hne : prows ≠ []) :
    P.generate_rss_go table prows "" none = P.build_once table prows ∧
    P.generate_rss_go table [] "" none = none := by
  refine ⟨?_, rfl⟩
  cases prows with
  | nil => exact absurd rfl hne
  | cons r rs =>
      rw [P.generate_rss_go_cons]
      unfold P.build_once
      rw [rssItemsSeq]
      cases P.rss_item table r with
      | none => rfl
      | some i =>
          dsimp only
          cases rssItemsSeq (P.rss_item table) rs with
          | none => rfl
          | some s => simp [str_empty_append]

theorem prev_rss_loop_equals_build_once_witness :
    P.generate_rss_go "weblog" [c7wRow] "" none = P.build_once "weblog" [c7wRow] ∧
    P.generate_rss_go "weblog" [] "" none = none :=
  prev_rss_loop_equals_build_once "weblog" [c7wRow] (by decide)

theorem foldl_writes_eq {γ : Type} (f : (Val × Entry) → γ) :
    ∀ (l : List (Val × Entry)) (acc : List γ),
    l.foldl (fun a p => a ++ [f p]) acc = acc ++ l.map f := by
  intro l
  induction l with
  | nil => intro acc; simp
  | cons p rest ih =>
      intro acc
      simp only [List.foldl_cons, List.map_cons]
      rw [ih]
      simp

theorem P_index_content_go_eq (table : String) :
    ∀ (values : List (Val × Entry)) (acc : String),
    P.index_content_go table acc values =
      acc ++ String.join (values.filterMap fun p =>
        if P.listedB p.2 then some (P.index_link table p.1 (P.labelOf p.2 p.1)) else none) := by
  intro values
  induction values with
  | nil => intro acc; simp [P.index_content_go, String.join, str_append_empty]
  | cons p rest ih =>
      obtain ⟨slug, row⟩ := p
      intro acc
      rw [P.index_content_go]
      by_cases hl : P.listedB row
      · rw [if_pos hl, ih]
        have hf : ((slug, row) :: rest).filterMap (fun p =>
            if P.listedB p.2 then some (P.index_link table p.1 (P.labelOf p.2 p.1)) else none)
            = P.index_link table slug (P.labelOf row slug) :: rest.filterMap (fun p =>
                if P.listedB p.2 then some (P.index_link table p.1 (P.labelOf p.2 p.1)) else none) := by
          simp [List.filterMap_cons, hl]
        rw [hf, str_join_cons, str_append_assoc]
      · rw [if_neg hl, ih]
        have hf : ((slug, row) :: rest).filterMap (fun p =>
            if P.listedB p.2 then some (P.index_link table p.1 (P.labelOf p.2 p.1)) else none)
            = rest.filterMap (fun p =>
                if P.listedB p.2 then some (P.index_link table p.1 (P.labelOf p.2 p.1)) else none) := by
          simp [List.filterMap_cons, hl]
        rw [hf]

theorem M_index_content_go_eq (table : String) :
    ∀ (values : List (Val × Entry)) (acc : String),
    M.index_content_go table acc values =
      acc ++ String.join (values.map fun p => M.index_link table p.1) := by
  intro values
  induction values with
  | nil => intro acc; simp [M.index_content_go, String.join, str_append_empty]
  | cons p rest ih =>
      obtain ⟨slug, row⟩ := p
      intro acc
      rw [M.index_content_go, ih, List.map_cons, str_join_cons, str_append_assoc]

/-- C4 counterexample: a row whose `listed` column is explicitly NULL is
*not* linked on `prev.py`'s section index (its link set is empty), even
though it still gets an entry page — the claim says an explicitly-null
`listed` defaults to listed; and `main.py`'s index links a row whose
`listed` is explicitly false (0). -/
theorem null_listed_row_not_linked :
    P.index_content "t" [(Val.text "a",
      [("slug", Val.text "a"), ("listed", Val.null), ("title", Val.text "T"),
       ("context", Val.text "")])] = "" ∧
    lookupA ([("slug", Val.text "a"), ("listed", Val.null), ("title", Val.text "T"),
       ("context", Val.text "")] : Entry) "listed" = some Val.null ∧
    P.generate_section_writes "css" "t" (fun _ _ => "PAGE")
      [(Val.text "a",
        [("slug", Val.text "a"), ("listed", Val.null), ("title", Val.text "T"),
         ("context", Val.text "")])] =
      [(entryPagePath "t" (Val.text "a"), "PAGE"),
       (indexPagePath "t", table_index_page "css" "t" "")] ∧
    M.index_content "t" [(Val.text "b",
      [("slug", Val.text "b"), ("listed", Val.int 0)])] =
      M.index_link "t" (Val.text "b") := by
  refine ⟨rfl, rfl, by decide, ?_⟩
  rw [M.index_content, M.index_content_go, M.index_content_go]
  exact str_empty_append _

/-- C4 (amended): `prev.py`'s section index links exactly the entries
whose `listed` value is truthy — an absent column defaults to listed, but
an explicit NULL, 0 or empty value unlists the row — in row iteration
order; unlisted rows still get an entry page (the per-row write happens
unconditionally before the index is written).  `main.py`'s
`generate_section` has no `listed` check at all: it links every row. -/
theorem section_index_links_truthy_listed (css table : String)
    (builder : String → Entry → String) (values : List (Val × Entry)) :
    P.generate_section_writes css table builder values =
      (values.map fun p => (entryPagePath table p.1, builder css p.2)) ++
      [(indexPagePath table, table_index_page css table (P.index_content table values))] ∧
    P.index_content table values = String.join (values.filterMap fun p =>
      if P.listedB p.2 then some (P.index_link table p.1 (P.labelOf p.2 p.1)) else none) ∧
    M.index_content table values = String.join (values.map fun p => M.index_link table p.1) := by
  refine ⟨?_, ?_, ?_⟩
  · unfold P.generate_section_writes
    rw [foldl_writes_eq]
    simp
  · unfold P.index_content
    rw [P_index_content_go_eq]
    exact str_empty_append _
  · unfold M.index_content
    rw [M_index_content_go_eq]
    exact str_empty_append _

/-- C1 counterexample: a stored body containing brace syntax (`{x}`) makes
`main.py`'s `gen_tmpl_values` fail: the body itself is re-interpreted as a
format string by `html.format(dateage=...)` and the unknown field `x` is
a `KeyError`, so rendering aborts instead of substituting the value
literally — while `prev.py`, which appends the fragment without
re-formatting, handles the same row fine. -/
theorem brace_body_breaks_main_render :
    M.gen_tmpl_values dateage_cmp c1wRows [] = none ∧
    (P.gen_tmpl_values c1wRows []).isSome = true := by
  refine ⟨by decide, by decide⟩

/-- C1 (amended): the final entry-page substitution never re-interprets a
placeholder's value: `main.py`'s `template.format(css=css, **row)` splices
the stored value into the template verbatim, whatever brace syntax the
value holds (and a template field with no matching column is a
`KeyError`); `prev.py`'s builder is plain concatenation, embedding
`context` and the body verbatim.  The exception the counterexample forces:
`main.py`'s *dateage injection* re-interprets the stored body itself as a
format string, so a body with brace syntax other than `{{`/`}}`/`{dateage}`
aborts or is altered before this final substitution. -/
theorem entry_render_inserts_values_literally (css : String) :
    (∀ (row : Entry) (pre post : List Char), braceFree pre = true → braceFree post = true →
      M.render_entry (String.mk (pre ++ '{' :: ("html".data ++ '}' :: post))) css row =
        match lookupA row "html" with
        | some hv => some (String.mk (pre ++ (valStr hv).data ++ post))
        | none => none) ∧
    (∀ e : PageEntry, entry_page css e =
      "<!doctype html>" ++
      h "html" []
        [h "head" []
          [h "title" [] [e.title ++ " | danielfalbo"],
           h "style" [] [css],
           "<meta charset=\"UTF-8\">",
           "<link rel=\"icon\" type=\"image/x-icon\" href=\"/favicon.ico\">"],
         h "body" [] [NAVBAR ++ title_component e.title ++ e.context ++ e.html]]) := by
  constructor
  · intro row pre post hpre hpost
    unfold M.render_entry
    cases hh : lookupA row "html" with
    | some hv =>
        dsimp only
        apply pyFormat_single_field _ _ _ _ _ hpre (by decide) hpost
        rw [show String.mk "html".data = "html" from rfl]
        simp [hh]
    | none =>
        dsimp only
        apply pyFormat_single_field_missing _ _ _ _ hpre (by decide) hpost
        rw [show String.mk "html".data = "html" from rfl]
        simp [hh]
  · intro e
    unfold entry_page layout
    congr 2

theorem entry_render_inserts_values_literally_witness :
    M.render_entry (String.mk ("x".data ++ '{' :: ("html".data ++ '}' :: "y".data))) "C"
        [("html", Val.text "A\x7bB")] =
      match lookupA ([("html", Val.text "A\x7bB")] : Entry) "html" with
      | some hv => some (String.mk ("x".data ++ (valStr hv).data ++ "y".data))
      | none => none :=
  (entry_render_inserts_values_literally "C").1
    [("html", Val.text "A\x7bB")] "x".data "y".data (by decide) (by decide)

theorem rowSlugs_mem :
    ∀ (rows : List Row) (svs : List Val) (r : Row) (s : Val),
    rowSlugs rows = some svs → r ∈ rows → lookupA r "slug" = some s → s ∈ svs := by
  intro rows
  induction rows with
  | nil => intro svs r s _ hr; simp at hr
  | cons x xs ih =>
      intro svs r s hsl hr hs
      rw [rowSlugs] at hsl
      cases hx : lookupA x "slug" with
      | none => rw [hx] at hsl; simp at hsl
      | some sx =>
          rw [hx] at hsl
          cases hxs : rowSlugs xs with
          | none => rw [hxs] at hsl; simp at hsl
          | some svs' =>
              rw [hxs] at hsl
              simp at hsl
              rcases List.mem_cons.mp hr with rfl | hrx
              · rw [hx] at hs
                rw [← hsl]
                simp [Option.some.inj hs]
              · rw [← hsl]
                simp [ih svs' r s hxs hrx hs]

theorem initTvsGo_notouch (sv : Val) :
    ∀ (rows : List Row) (acc tvs : List (Val × Entry)),
    initTvsGo acc rows = some tvs →
    (∀ row ∈ rows, lookupA row "slug" ≠ some sv) →
    lookupA tvs sv = lookupA acc sv := by
  intro rows
  induction rows with
  | nil =>
      intro acc tvs h _
      simp [initTvsGo] at h
      rw [← h]
  | cons x xs ih =>
      intro acc tvs h hne
      rw [initTvsGo] at h
      cases hx : lookupA x "slug" with
      | none => rw [hx] at h; exact absurd h (by simp)
      | some sx =>
          rw [hx] at h
          have hstep := ih _ _ h (fun row hrow => hne row (by simp [hrow]))
          rw [hstep]
          have hsx : sv ≠ sx := by
            intro hh
            exact hne x (by simp) (by rw [hx, hh])
          exact lookupA_setA_other _ _ _ _ hsx

theorem initTvs_lookup :
    ∀ (rows : List Row) (acc : List (Val × Entry)) (svs : List Val) (r : Row) (sv : Val)
      (tvs : List (Val × Entry)),
    rowSlugs rows = some svs → svs.Nodup → r ∈ rows → lookupA r "slug" = some sv →
    initTvsGo acc rows = some tvs → lookupA tvs sv = some (initEntry r) := by
  intro rows
  induction rows with
  | nil => intro acc svs r sv tvs _ _ hr; simp at hr
  | cons x xs ih =>
      intro acc svs r sv tvs hsl hnd hr hsv hgo
      rw [rowSlugs] at hsl
      cases hx : lookupA x "slug" with
      | none => rw [hx] at hsl; simp at hsl
      | some sx =>
          rw [hx] at hsl
          cases hxs : rowSlugs xs with
          | none => rw [hxs] at hsl; simp at hsl
          | some svs' =>
              rw [hxs] at hsl
              simp at hsl
              rw [initTvsGo, hx] at hgo
              have hnd' : svs'.Nodup ∧ sx ∉ svs' := by
                rw [← hsl] at hnd
                exact ⟨hnd.of_cons, (List.nodup_cons.mp hnd).1⟩
              rcases List.mem_cons.mp hr with rfl | hrx
              · have hsvx : sv = sx := by
                  rw [hx] at hsv
                  exact (Option.some.inj hsv).symm
                subst hsvx
                have hnone : ∀ row ∈ xs, lookupA row "slug" ≠ some sv := by
                  intro row hrow heq
                  exact hnd'.2 (rowSlugs_mem xs svs' row sv hxs hrow heq)
                rw [initTvsGo_notouch sv xs _ _ hgo hnone]
                exact lookupA_setA_same _ _ _
              · exact ih _ svs' r sv tvs hxs hnd'.1 hrx hsv hgo

theorem getOpt_initEntry (r : Row) (k : String) (hk : k ≠ "context") :
    getOpt (initEntry r) k = getOpt r k := by
  unfold getOpt initEntry
  rw [lookupA_setA_other _ _ _ _ hk]

theorem getOpt_text (e : Entry) (k : String) (s : String)
    (h : lookupA e k = some (Val.text s)) : getOpt e k = some (Val.text s) := by
  unfold getOpt
  rw [h]

theorem P_dateage_entry_apply (e : Entry) (hs0 : String) (cv : Val)
    (hh : getOpt e "html" = some (Val.text hs0)) (hc : getOpt e "created_time" = some cv) :
    P.dateage_entry e = some (setA e "html" (Val.text (hs0 ++ dateage_js (valStr cv)))) := by
  unfold P.dateage_entry
  rw [hh, hc]

theorem P_dateage_entry_skip (e : Entry)
    (h : getOpt e "html" = none ∨ getOpt e "created_time" = none) :
    P.dateage_entry e = some e := by
  unfold P.dateage_entry
  rcases h with h | h
  · rw [h]
  · cases hh : getOpt e "html" with
    | none => rfl
    | some hv => rw [h]

theorem M_dateage_entry_apply (cmp : String) (e : Entry) (hs0 : String) (cv : Val)
    (frag hs2 : String)
    (hh : getOpt e "html" = some (Val.text hs0)) (hc : getOpt e "created_time" = some cv)
    (hfr : pyFormat (fun n => if n = "created_time" then some (valStr cv)
      else if n = "AUTHOR_BIRTHDAY" then some AUTHOR_BIRTHDAY else none) cmp = some frag)
    (hfm : pyFormat (fun n => if n = "dateage" then some frag else none) hs0 = some hs2) :
    M.dateage_entry cmp e = some (setA e "html" (Val.text hs2)) := by
  unfold M.dateage_entry
  rw [hh, hc]
  dsimp only
  rw [hfr]
  dsimp only
  rw [hfm]

theorem M_dateage_entry_skip (cmp : String) (e : Entry)
    (h : getOpt e "html" = none ∨ getOpt e "created_time" = none) :
    M.dateage_entry cmp e = some e := by
  unfold M.dateage_entry
  rcases h with h | h
  · rw [h]
  · cases hh : getOpt e "html" with
    | none => rfl
    | some hv => rw [h]

theorem frame_pipeline (dstep : Entry → Option Entry)
    (hstep : ∀ e e2, dstep e = some e2 → ∀ k, k ≠ "html" → lookupA e2 k = lookupA e k)
    (link : String → Val → String) (rows : List Row) (decls : List RelDecl)
    (tvs0 tvs1 : List (Val × Entry)) (svs : List Val) (r : Row) (sv : Val) (e : Entry)
    (hs : rowSlugs rows = some svs) (hnd : svs.Nodup) (hr : r ∈ rows)
    (hsv : lookupA r "slug" = some sv)
    (h0 : initTvs rows = some tvs0)
    (h1 : mapEntriesM dstep tvs0 = some tvs1)
    (hl : lookupA (resolveRels link decls tvs1) sv = some e) :
    ∃ e1, dstep (initEntry r) = some e1 ∧
      lookupA e "html" = lookupA e1 "html" ∧
      (∀ k, k ≠ "html" → k ≠ "context" → lookupA e k = lookupA r k) := by
  have hinit : lookupA tvs0 sv = some (initEntry r) :=
    initTvs_lookup rows [] svs r sv tvs0 hs hnd hr hsv h0
  obtain ⟨e1, hd, h1l⟩ := mapEntriesM_lookup dstep tvs0 tvs1 h1 sv _ hinit
  obtain ⟨e', he', _, hother⟩ := resolveRels_lookup link decls tvs1 sv e1 h1l
  have hee : e' = e := by
    rw [he'] at hl
    exact Option.some.inj hl
  refine ⟨e1, hd, ?_, ?_⟩
  · rw [← hee]
    exact hother "html" (by decide)
  · intro k hk1 hk2
    rw [← hee, hother k hk2, hstep _ _ hd k hk1]
    unfold initEntry
    exact lookupA_setA_other _ _ _ _ hk2

/-- C10 counterexample: `main.py`'s `gen_tmpl_values` does *not* leave
the stored body intact modulo an injected fragment: a stored body
`{{x}}` (with both `html` and `created_time` present) comes out as `{x}`
— shorter than the stored body, so the result cannot be the stored text
with a date-age fragment added; the doubled braces were collapsed by the
body's re-interpretation as a format string. -/
theorem main_html_reformat_shrinks :
    (M.gen_tmpl_values dateage_cmp c10wRows []).isSome = true ∧
    lookupA ((lookupA ((M.gen_tmpl_values dateage_cmp c10wRows []).getD [])
      (Val.text "a")).getD []) "html" = some (Val.text "\x7bx\x7d") ∧
    ("\x7bx\x7d" : String).length < ("\x7b\x7bx\x7d\x7d" : String).length := by
  refine ⟨by decide, by decide, by decide⟩

/-- C10 (amended): `gen_tmpl_values` preserves raw column values: for a
row keyed by its (unique) slug, every key of the returned entry other
than `html` and `context` equals the stored column value; relationship
resolution touches only `context`.  The `html` value: in `prev.py` it is
exactly the stored body with the `dateage_js` fragment appended, added
precisely when the row has both a (non-null) `html` and `created_time`;
in `main.py` the stored body is re-interpreted as a format string, so the
fragment is spliced at the `{dateage}` placeholder — the body-with-
fragment shape holds only for bodies whose brace syntax is exactly one
`{dateage}` field (otherwise substitution is altered or aborts, see the
counterexample); when `html` or `created_time` is missing/null both
variants leave `html` unchanged. -/
theorem gen_tmpl_values_frame (rows : List Row) (decls : List RelDecl)
    (svs : List Val) (r : Row) (sv : Val)
    (hsl : rowSlugs rows = some svs) (hnd : svs.Nodup) (hr : r ∈ rows)
    (hsv : lookupA r "slug" = some sv) :
    (∀ tvs e, P.gen_tmpl_values rows decls = some tvs → lookupA tvs sv = some e →
      (∀ k, k ≠ "html" → k ≠ "context" → lookupA e k = lookupA r k) ∧
      (∀ hs0 cv, lookupA r "html" = some (Val.text hs0) →
        getOpt r "created_time" = some cv →
        lookupA e "html" = some (Val.text (hs0 ++ dateage_js (valStr cv)))) ∧
      ((getOpt r "html" = none ∨ getOpt r "created_time" = none) →
        lookupA e "html" = lookupA r "html")) ∧
    (∀ cmp tvs e, M.gen_tmpl_values cmp rows decls = some tvs → lookupA tvs sv = some e →
      (∀ k, k ≠ "html" → k ≠ "context" → lookupA e k = lookupA r k) ∧
      (∀ (hs0 : String) (cv : Val) (frag : String) (b1 b2 : List Char),
        lookupA r "html" = some (Val.text hs0) →
        getOpt r "created_time" = some cv →
        pyFormat (fun n => if n = "created_time" then some (valStr cv)
          else if n = "AUTHOR_BIRTHDAY" then some AUTHOR_BIRTHDAY else none) cmp = some frag →
        hs0 = String.mk (b1 ++ '{' :: ("dateage".data ++ '}' :: b2)) →
        braceFree b1 = true → braceFree b2 = true →
        lookupA e "html" = some (Val.text (String.mk (b1 ++ frag.data ++ b2)))) ∧
      ((getOpt r "html" = none ∨ getOpt r "created_time" = none) →
        lookupA e "html" = lookupA r "html")) := by
  constructor
  · intro tvs e hgen hl
    unfold P.gen_tmpl_values at hgen
    cases h0 : initTvs rows with
    | none => rw [h0] at hgen; exact absurd hgen (by simp)
    | some tvs0 =>
        rw [h0] at hgen
        dsimp only at hgen
        cases h1 : mapEntriesM P.dateage_entry tvs0 with
        | none => rw [h1] at hgen; exact absurd hgen (by simp)
        | some tvs1 =>
            rw [h1] at hgen
            dsimp only at hgen
            have htvs : resolveRels P.rel_link decls tvs1 = tvs := Option.some.inj hgen
            rw [← htvs] at hl
            obtain ⟨e1, hd, hhtml, hframe⟩ :=
              frame_pipeline P.dateage_entry P_dateage_entry_other P.rel_link
                rows decls tvs0 tvs1 svs r sv e hsl hnd hr hsv h0 h1 hl
            refine ⟨hframe, ?_, ?_⟩
            · intro hs0 cv hh hc
              have hh' : getOpt (initEntry r) "html" = some (Val.text hs0) := by
                rw [getOpt_initEntry r "html" (by decide)]
                exact getOpt_text r "html" hs0 hh
              have hc' : getOpt (initEntry r) "created_time" = some cv := by
                rw [getOpt_initEntry r "created_time" (by decide)]
                exact hc
              have happ := P_dateage_entry_apply (initEntry r) hs0 cv hh' hc'
              have he1 : e1 = setA (initEntry r) "html"
                  (Val.text (hs0 ++ dateage_js (valStr cv))) := by
                rw [hd] at happ
                exact Option.some.inj happ
              rw [hhtml, he1, lookupA_setA_same]
            · intro hskip
              have hskip' : getOpt (initEntry r) "html" = none ∨
                  getOpt (initEntry r) "created_time" = none := by
                rcases hskip with hk | hk
                · left; rw [getOpt_initEntry r "html" (by decide)]; exact hk
                · right; rw [getOpt_initEntry r "created_time" (by decide)]; exact hk
              have happ := P_dateage_entry_skip (initEntry r) hskip'
              have he1 : e1 = initEntry r := by
                rw [hd] at happ
                exact Option.some.inj happ
              rw [hhtml, he1]
              unfold initEntry
              exact lookupA_setA_other _ _ _ _ (by decide)
  · intro cmp tvs e hgen hl
    unfold M.gen_tmpl_values at hgen
    cases h0 : initTvs rows with
    | none => rw [h0] at hgen; exact absurd hgen (by simp)
    | some tvs0 =>
        rw [h0] at hgen
        dsimp only at hgen
        cases h1 : mapEntriesM (M.dateage_entry cmp) tvs0 with
        | none => rw [h1] at hgen; exact absurd hgen (by simp)
        | some tvs1 =>
            rw [h1] at hgen
            dsimp only at hgen
            have htvs : resolveRels M.rel_link decls tvs1 = tvs := Option.some.inj hgen
            rw [← htvs] at hl
            obtain ⟨e1, hd, hhtml, hframe⟩ :=
              frame_pipeline (M.dateage_entry cmp) (M_dateage_entry_other cmp) M.rel_link
                rows decls tvs0 tvs1 svs r sv e hsl hnd hr hsv h0 h1 hl
            refine ⟨hframe, ?_, ?_⟩
            · intro hs0 cv frag b1 b2 hh hc hfr hdec hb1 hb2
              have hh' : getOpt (initEntry r) "html" = some (Val.text hs0) := by
                rw [getOpt_initEntry r "html" (by decide)]
                exact getOpt_text r "html" hs0 hh
              have hc' : getOpt (initEntry r) "created_time" = some cv := by
                rw [getOpt_initEntry r "created_time" (by decide)]
                exact hc
              have hfm : pyFormat (fun n => if n = "dateage" then some frag else none) hs0
                  = some (String.mk (b1 ++ frag.data ++ b2)) := by
                rw [hdec]
                apply pyFormat_single_field _ _ _ _ _ hb1 (by decide) hb2
                rfl
              have happ := M_dateage_entry_apply cmp (initEntry r) hs0 cv frag
                (String.mk (b1 ++ frag.data ++ b2)) hh' hc' hfr hfm
              have he1 : e1 = setA (initEntry r) "html"
                  (Val.text (String.mk (b1 ++ frag.data ++ b2))) := by
                rw [hd] at happ
                exact Option.some.inj happ
              rw [hhtml, he1, lookupA_setA_same]
            · intro hskip
              have hskip' : getOpt (initEntry r) "html" = none ∨
                  getOpt (initEntry r) "created_time" = none := by
                rcases hskip with hk | hk
                · left; rw [getOpt_initEntry r "html" (by decide)]; exact hk
                · right; rw [getOpt_initEntry r "created_time" (by decide)]; exact hk
              have happ := M_dateage_entry_skip cmp (initEntry r) hskip'
              have he1 : e1 = initEntry r := by
                rw [hd] at happ
                exact Option.some.inj happ
              rw [hhtml, he1]
              unfold initEntry
              exact lookupA_setA_other _ _ _ _ (by decide)

theorem gen_tmpl_values_frame_witness :
    (∀ k, k ≠ "html" → k ≠ "context" → lookupA c10vE k = lookupA c10vRow k) ∧
    (∀ hs0 cv, lookupA c10vRow "html" = some (Val.text hs0) →
      getOpt c10vRow "created_time" = some cv →
      lookupA c10vE "html" = some (Val.text (hs0 ++ dateage_js (valStr cv)))) ∧
    ((getOpt c10vRow "html" = none ∨ getOpt c10vRow "created_time" = none) →
      lookupA c10vE "html" = lookupA c10vRow "html") :=
  (gen_tmpl_values_frame c10vRows [] [Val.text "a"] c10vRow (Val.text "a")
    (by decide) (by decide) (by decide) (by decide)).1 c10vTvs c10vE
    (by decide) (by decide)
